import Mathlib

/-!
Verification development for the tag-mapping extraction tool
(`src/ExtractTagData.py`).  The Python function `extract_mappings` is
shallowly embedded below: the XML document is modelled by the abstract
tree the code reads (tag declarations, rungs, message parameters), the
four instruction regexes are implemented as deterministic scanners with
the same semantics on the relevant patterns, and the record pipeline
(rung scan, bit-output sweep, not-found pass, dedup, natural sort) is
translated statement by statement.

Modelling notes on host-language primitives:
* Python `str.strip` / `\s` are modelled over the ASCII whitespace set
  (space, tab, newline, carriage return, form feed, vertical tab);
  `\d` and `int()` over ASCII digits (unicode digits and underscore
  separators are not modelled; no input below uses them).
* Python dictionaries with last-write-wins assignment are modelled as
  association lists read from the right; `dict.setdefault(k, []).append`
  accumulation is modelled by keeping the flat insertion-ordered list of
  (key, value) pairs and filtering by key, which yields the same per-key
  value sequence.
* An uncaught Python exception (the `int()` calls in the
  MessageParameters branch) is modelled by `Option`: the whole run
  returns `none` where the script would abort with a traceback.
-/

namespace ExtractTagData

/-! ### Character classes and small Python-string helpers -/

/-- Python regex `\s` (ASCII part). -/
def isPySpace (c : Char) : Bool :=
  c = ' ' || c = '\t' || c = '\n' || c = '\r' || c = '\x0b' || c = '\x0c'

/-- Python regex `\w` (ASCII part), used for the `\b` word boundary. -/
def isWordChar (c : Char) : Bool :=
  c.isAlpha || c.isDigit || c = '_'

/-- Characters admitted by the operand class `[^,\s\)]` of the
COP/CPS/MOV/FFL patterns. -/
def isArgChar (c : Char) : Bool :=
  !(c = ',' || isPySpace c || c = ')')

/-- Characters admitted by the operand class `[^\s\)]` of the OTE
pattern (a comma is allowed here). -/
def isOteArgChar (c : Char) : Bool :=
  !(isPySpace c || c = ')')

/-- Python `str.strip()` (ASCII whitespace). -/
def pyStrip (s : String) : String :=
  ⟨((s.data.dropWhile isPySpace).reverse.dropWhile isPySpace).reverse⟩

/-- Python `str.upper()` (ASCII; `Char.toUpper` only maps a-z), applied
per character of the underlying data. -/
def pyUpper (s : String) : String :=
  ⟨s.data.map Char.toUpper⟩

/-- Value of a nonempty ASCII digit string. -/
def digitsToNat (ds : List Char) : Nat :=
  ds.foldl (fun n c => n * 10 + (c.toNat - '0'.toNat)) 0

/-- Python `int(s)` on a string: optional surrounding whitespace,
optional sign, one or more ASCII digits; `none` models the raised
`ValueError`. -/
def pyInt? (s : String) : Option Int :=
  let t := (pyStrip s).data
  let (sign, ds) : Int × List Char :=
    match t with
    | '-' :: rest => (-1, rest)
    | '+' :: rest => (1, rest)
    | rest => (1, rest)
  if ds ≠ [] ∧ ds.all Char.isDigit then some (sign * (digitsToNat ds : Int))
  else none

/-! ### Tag-identifier parsing

The module-level helpers of `ExtractTagData.py`:

* `_tag_pat = ^(.*?)(?:\[(\d+)\])?(?:\.(\d+))?$` used by `tag_sort_key`:
  with the lazy base anchored at the end, the match strips a trailing
  `.digits` bit suffix (the entire run of characters after the last dot
  must be digits) and then a trailing `[digits]` array suffix.
* `split_index` uses `^(.+?)\[(\d+)\]$`: same `[digits]` suffix but the
  base must be nonempty; on no match it returns `(tag, 0)`.
* `strip_index` removes a trailing `[digits]` (empty base allowed). -/

/-- Split a trailing `.digits` suffix (the bit index of `_tag_pat`). -/
def splitBitSuffix (s : List Char) : List Char × Option Nat :=
  let rev := s.reverse
  let ds := rev.takeWhile Char.isDigit
  match rev.drop ds.length with
  | '.' :: rest =>
      if ds = [] then (s, none)
      else (rest.reverse, some (digitsToNat ds.reverse))
  | _ => (s, none)

/-- Split a trailing `[digits]` suffix (the array index of `_tag_pat`).
The base may be empty. -/
def splitIdxSuffix (s : List Char) : List Char × Option Nat :=
  match s.reverse with
  | ']' :: rev =>
      let ds := rev.takeWhile Char.isDigit
      match rev.drop ds.length with
      | '[' :: rest =>
          if ds = [] then (s, none)
          else (rest.reverse, some (digitsToNat ds.reverse))
      | _ => (s, none)
  | _ => (s, none)

/-- `tag_sort_key(tag)`: `(base, idx, bit)` with the numeric components
defaulting to `-1` when the suffix is absent. -/
def tag_sort_key (tag : String) : String × Int × Int :=
  let (afterBit, bit) := splitBitSuffix tag.data
  let (base, idx) := splitIdxSuffix afterBit
  (⟨base⟩, (idx.map (Int.ofNat)).getD (-1), (bit.map (Int.ofNat)).getD (-1))

/-- The match of `^(.+?)\[(\d+)\]$` when it exists: nonempty base and a
final `[digits]` group. -/
def matchIdx? (tag : String) : Option (String × Nat) :=
  match splitIdxSuffix tag.data with
  | (base, some i) => if base = [] then none else some (⟨base⟩, i)
  | (_, none) => none

/-- `split_index(tag)`: `(base, idx)` with `idx` defaulting to `0`. -/
def split_index (tag : String) : String × Nat :=
  (matchIdx? tag).getD (tag, 0)

/-- `strip_index(tag)`: base name with any trailing `[idx]` removed. -/
def strip_index (tag : String) : String :=
  ⟨(splitIdxSuffix tag.data).1⟩

/-! ### The instruction scanners

Each Python regex is replaced by a deterministic matcher: all the
operand classes exclude the delimiter that follows them, so the greedy
Python semantics never backtracks and maximal-munch matching is exact.
`re.findall` is the usual leftmost, non-overlapping scan. -/

/-- Case-insensitive literal keyword match (pattern given lowercase);
returns the rest of the input. -/
def matchCI : List Char → List Char → Option (List Char)
  | [], s => some s
  | _ :: _, [] => none
  | p :: ps, c :: cs => if c.toLower = p then matchCI ps cs else none

/-- `\s*`. -/
def skipSpaces : List Char → List Char
  | [] => []
  | c :: cs => if isPySpace c then skipSpaces cs else c :: cs

/-- A single literal character. -/
def expectChar (ch : Char) : List Char → Option (List Char)
  | [] => none
  | c :: cs => if c = ch then some cs else none

/-- One-or-more characters of a class (greedy). -/
def takeWhile1 (p : Char → Bool) (s : List Char) :
    Option (List Char × List Char) :=
  let t := s.takeWhile p
  if t = [] then none else some (t, s.drop t.length)

/-- A match of `cop_re` (groups: instruction, source, dest, length). -/
structure CopMatch where
  instr : String
  src : String
  dst : String
  len : Nat
deriving DecidableEq, Repr

/-- A match of `mov_re`. -/
structure MovMatch where
  src : String
  dst : String
deriving DecidableEq, Repr

/-- A match of `ffl_re`. -/
structure FflMatch where
  src : String
  dst : String
  ctl : String
deriving DecidableEq, Repr

/-- The alternation `(COP|CPS)`, case-insensitive; the group is
recorded already uppercased, which is exactly what `instr.upper()`
produces for a case-insensitive match of this alternation. -/
def tryCopKw (s : List Char) : Option (String × List Char) :=
  match matchCI ['c', 'o', 'p'] s with
  | some r => some ("COP", r)
  | none =>
    match matchCI ['c', 'p', 's'] s with
    | some r => some ("CPS", r)
    | none => none

/-- `cop_re` at the current position (the `\b` is checked by the
scanner): `(COP|CPS)\s*\(\s*ARG\s*,\s*ARG\s*,\s*(\d+)\s*\)`. -/
def tryCop (s : List Char) : Option (CopMatch × List Char) := do
  let (kw, r0) ← tryCopKw s
  let r1 ← expectChar '(' (skipSpaces r0)
  let (src, r2) ← takeWhile1 isArgChar (skipSpaces r1)
  let r3 ← expectChar ',' (skipSpaces r2)
  let (dst, r4) ← takeWhile1 isArgChar (skipSpaces r3)
  let r5 ← expectChar ',' (skipSpaces r4)
  let (ds, r6) ← takeWhile1 Char.isDigit (skipSpaces r5)
  let r7 ← expectChar ')' (skipSpaces r6)
  some (⟨kw, ⟨src⟩, ⟨dst⟩, digitsToNat ds⟩, r7)

/-- `mov_re` at the current position:
`MOV\s*\(\s*ARG\s*,\s*ARG\s*\)`. -/
def tryMov (s : List Char) : Option (MovMatch × List Char) := do
  let r0 ← matchCI ['m', 'o', 'v'] s
  let r1 ← expectChar '(' (skipSpaces r0)
  let (src, r2) ← takeWhile1 isArgChar (skipSpaces r1)
  let r3 ← expectChar ',' (skipSpaces r2)
  let (dst, r4) ← takeWhile1 isArgChar (skipSpaces r3)
  let r5 ← expectChar ')' (skipSpaces r4)
  some (⟨⟨src⟩, ⟨dst⟩⟩, r5)

/-- `ffl_re` at the current position (no closing delimiter after the
control group): `FFL\s*\(\s*ARG\s*,\s*ARG\s*,\s*ARG`. -/
def tryFfl (s : List Char) : Option (FflMatch × List Char) := do
  let r0 ← matchCI ['f', 'f', 'l'] s
  let r1 ← expectChar '(' (skipSpaces r0)
  let (src, r2) ← takeWhile1 isArgChar (skipSpaces r1)
  let r3 ← expectChar ',' (skipSpaces r2)
  let (dst, r4) ← takeWhile1 isArgChar (skipSpaces r3)
  let r5 ← expectChar ',' (skipSpaces r4)
  let (ctl, r6) ← takeWhile1 isArgChar (skipSpaces r5)
  some (⟨⟨src⟩, ⟨dst⟩, ⟨ctl⟩⟩, r6)

/-- `ote_text_re` at the current position:
`OTE\s*\(\s*([^\s\)]+)\s*\)`. -/
def tryOte (s : List Char) : Option (String × List Char) := do
  let r0 ← matchCI ['o', 't', 'e'] s
  let r1 ← expectChar '(' (skipSpaces r0)
  let (op, r2) ← takeWhile1 isOteArgChar (skipSpaces r1)
  let r3 ← expectChar ')' (skipSpaces r2)
  some (⟨op⟩, r3)

/-- Word-boundary admissibility of the character preceding the current
position (all four patterns start with `\b` followed by a letter). -/
def boundaryOk : Option Char → Bool
  | none => true
  | some c => !isWordChar c

/-- `re.findall`: leftmost matches, scanning resumes after each match.
`fuel` bounds the recursion; it starts at `length + 1` and every step
consumes at least one character, so it is never exhausted. -/
def scanAux (tryAt : List Char → Option (α × List Char)) :
    Nat → Option Char → List Char → List α
  | 0, _, _ => []
  | _ + 1, _, [] => []
  | fuel + 1, prev, c :: cs =>
    match (if boundaryOk prev then tryAt (c :: cs) else none) with
    | some (a, rest) =>
        let consumed := (c :: cs).length - rest.length
        a :: scanAux tryAt fuel (((c :: cs).take consumed).getLast?) rest
    | none => scanAux tryAt fuel (some c) cs

/-- `pattern.findall(text)`. -/
def scanText (tryAt : List Char → Option (α × List Char)) (s : String) :
    List α :=
  scanAux tryAt (s.data.length + 1) none s.data

/-! ### The document model

Abstract form of the parts of the L5X tree that `extract_mappings`
reads.  Attribute reads `elem.get(...)` are `Option String`; the code's
`or ""` / truthiness tests are applied in the builders below. -/

/-- One `<Comment>` child of a tag's `<Comments>` element
(`Operand` attribute, and text from the `Text` attribute or body). -/
structure TagComment where
  operand : String
  text : String
deriving DecidableEq, Repr

/-- One `<Tag>` declaration.  `lenValue` is the `Value` attribute of the
first `DataValueMember[@Name='LEN']` descendant (`none` when the element
or the attribute is absent: both end in no recorded length). -/
structure Tag where
  name : Option String
  dataType : Option String
  description : Option String
  comments : List TagComment
  lenValue : Option String
deriving DecidableEq, Repr

/-- A structured rung element carrying an `Operand` attribute,
optionally with an attached `<Comment>`. -/
structure OperandElem where
  operand : String
  comment : Option String
deriving DecidableEq, Repr

/-- A `<MessageParameters>` element found under a rung. -/
structure MsgParams where
  localElement : Option String
  requestedLength : Option String
  localIndex : Option String
  remoteElement : Option String
deriving DecidableEq, Repr

/-- A `<Rung>` with its ancestor context (program and routine names and
the rung `Number` attribute), its `<Text>` rendering, its structured
operand elements and its message parameters, in document order. -/
structure Rung where
  progName : Option String
  routName : Option String
  number : Option String
  text : String
  operandElems : List OperandElem
  msgParams : List MsgParams
deriving DecidableEq, Repr

/-- The parsed L5X document: all `<Tag>` and all `<Rung>` elements, in
document order. -/
structure Doc where
  tags : List Tag
  rungs : List Rung
deriving DecidableEq, Repr

/-- The inputs of `extract_mappings`: the `Col45` column of the Excel
monitored-tag list (already string-converted and with blanks dropped)
and the document. -/
structure Inputs where
  destCol : List String
  doc : Doc
deriving DecidableEq, Repr

/-- One output row (the eight columns written to the mapping table).
`program`/`routine`/`rung` are `Option String` because the XML `Name` /
`Number` attribute reads can yield Python `None`; the not-found rows use
the literal empty string. -/
structure MappingRecord where
  col45 : String
  description : String
  dataType : String
  program : Option String
  routine : Option String
  rung : Option String
  instruction : String
  source : String
deriving DecidableEq, Repr

/-! ### Step 3: the lookup maps built from the tag declarations -/

/-- The four dictionaries of step 3, as insertion-ordered association
lists (assignment appends; lookups read the last write). -/
structure Maps where
  dtype : List (String × String)
  baseDesc : List (String × String)
  tagComments : List (String × String)
  controlLen : List (String × Int)
deriving Repr

/-- Python `dict.get(k)` for a last-write-wins association list. -/
def dictGet? (m : List (String × α)) (k : String) : Option α :=
  (m.reverse.find? (fun p => p.1 = k)).map (·.2)

/-- Python `dict.get(k, d)`. -/
def dictGetD (m : List (String × α)) (k : String) (d : α) : α :=
  (dictGet? m k).getD d

/-- The step-3 loop over `root.findall(".//Tag")`. -/
def buildMaps (tags : List Tag) : Maps :=
  List.foldl (fun m t =>
    if (t.name.getD "") = "" then m
    else
      let nm := t.name.getD ""
      let dt := pyUpper (t.dataType.getD "")
      let m := if dt ≠ "" then { m with dtype := m.dtype ++ [(nm, dt)] } else m
      let desc := pyStrip (t.description.getD "")
      let m :=
        if t.description.isSome ∧ desc ≠ "" then
          { m with baseDesc := m.baseDesc ++ [(nm, desc)] }
        else m
      let m := List.foldl (fun m c =>
        let op := pyStrip c.operand
        if op = "" then m
        else
          let tx := pyStrip c.text
          if tx = "" then m
          else
            let key := if op.data.head? = some '[' then nm ++ op else op
            { m with tagComments := m.tagComments ++ [(key, tx)] }) m t.comments
      if dt = "CONTROL" then
        match t.lenValue.bind pyInt? with
        | some n => { m with controlLen := m.controlLen ++ [(nm, n)] }
        | none => m
      else m) ⟨[], [], [], []⟩ tags

/-! ### Step 5 state built per rung: OTE occurrences and rung comments -/

/-- The (program, routine, rung) context triple of a rung. -/
def rungCtx (r : Rung) : Option String × Option String × Option String :=
  (r.progName, r.routName, r.number)

/-- The stripped, nonempty OTE operands of a rung's text, in match
order. -/
def oteOperandsOf (r : Rung) : List String :=
  (scanText tryOte r.text).filterMap fun op =>
    let t := pyStrip op
    if t = "" then none else some t

/-- The `ote_map.setdefault(...).append(...)` accumulation, flattened:
the global insertion-ordered list of (operand, context) pairs. -/
def oteFlat (rungs : List Rung) :
    List (String × (Option String × Option String × Option String)) :=
  rungs.flatMap fun r => (oteOperandsOf r).map fun op => (op, rungCtx r)

/-- `ote_map.get(op)` (the per-key occurrence list, in scan order;
`[]` plays the role of the absent key). -/
def oteGet (flat : List (String × α)) (op : String) : List α :=
  (flat.filter (fun p => p.1 = op)).map (·.2)

/-- The rung-level comment candidates of one rung (stripped operand and
stripped nonempty text), in document order. -/
def rungCommentEntries (r : Rung) : List (String × String) :=
  r.operandElems.filterMap fun e =>
    let op := pyStrip e.operand
    if op = "" then none
    else
      match e.comment with
      | none => none
      | some ctext =>
        let ct := pyStrip ctext
        if ct = "" then none else some (op, ct)

/-- All rung-level comment candidates, in scan order. -/
def rungCommentsFlat (rungs : List Rung) : List (String × String) :=
  rungs.flatMap rungCommentEntries

/-- `dict.get` on a first-write-wins stream (the rung loop only inserts
an operand when it is not yet present). -/
def firstGet? (m : List (String × α)) (k : String) : Option α :=
  (m.find? (fun p => p.1 = k)).map (·.2)

/-- `bit_comment_map.get(op)` at the time of the bit sweep: the
declaration-level entry (last write of step 3) wins; otherwise the first
rung-level candidate that was inserted. -/
def bitCommentGet (maps : Maps) (rungs : List Rung) (op : String) :
    Option String :=
  (dictGet? maps.tagComments op).orElse fun _ => firstGet? (rungCommentsFlat rungs) op

/-! ### Step 5: the per-rung record builders -/

/-- The per-match expansion of one COP/CPS occurrence (the inner
`for k in range(length)` loop). -/
def copExpand (maps : Maps) (destSet : List String)
    (ctx : Option String × Option String × Option String) (m : CopMatch) :
    List MappingRecord :=
  (List.range m.len).filterMap fun k =>
    if (split_index m.dst).1 ++ "[" ++ toString ((split_index m.dst).2 + k) ++ "]" ∈ destSet then
      some
        { col45 := (split_index m.dst).1 ++ "[" ++ toString ((split_index m.dst).2 + k) ++ "]",
          description := dictGetD maps.baseDesc (split_index m.dst).1 "",
          dataType := dictGetD maps.dtype (split_index m.dst).1 "",
          program := ctx.1, routine := ctx.2.1, rung := ctx.2.2,
          instruction := m.instr,
          source := (split_index m.src).1 ++ "[" ++ toString ((split_index m.src).2 + k) ++ "]" }
    else none

/-- The COP/CPS block of the rung loop. -/
def copRecords (maps : Maps) (destSet : List String)
    (ctx : Option String × Option String × Option String) (txt : String) :
    List MappingRecord :=
  (scanText tryCop txt).flatMap (copExpand maps destSet ctx)

/-- The MOV block of the rung loop. -/
def movRecords (maps : Maps) (destSet : List String)
    (ctx : Option String × Option String × Option String) (txt : String) :
    List MappingRecord :=
  (scanText tryMov txt).filterMap fun m =>
    if m.dst ∈ destSet then
      some
        { col45 := m.dst,
          description := dictGetD maps.baseDesc (split_index m.dst).1 "",
          dataType := dictGetD maps.dtype (split_index m.dst).1 "",
          program := ctx.1, routine := ctx.2.1, rung := ctx.2.2,
          instruction := "MOV", source := m.src }
    else none

/-- The per-match expansion of one FFL occurrence.
`if not ffl_len: continue` skips both a missing length and a length of
zero; a negative stored length makes `range` empty.  The source operand
is deliberately kept verbatim (`# Source is typically scalar; keep
as-is`). -/
def fflExpand (maps : Maps) (destSet : List String)
    (ctx : Option String × Option String × Option String) (m : FflMatch) :
    List MappingRecord :=
  match dictGet? maps.controlLen (strip_index m.ctl) with
  | none => []
  | some n =>
    if n = 0 then []
    else
      (List.range n.toNat).filterMap fun k =>
        if (split_index m.dst).1 ++ "[" ++ toString ((split_index m.dst).2 + k) ++ "]" ∈ destSet then
          some
            { col45 := (split_index m.dst).1 ++ "[" ++ toString ((split_index m.dst).2 + k) ++ "]",
              description := dictGetD maps.baseDesc (split_index m.dst).1 "",
              dataType := dictGetD maps.dtype (split_index m.dst).1 "",
              program := ctx.1, routine := ctx.2.1, rung := ctx.2.2,
              instruction := "FFL", source := m.src }
        else none

/-- The FFL block of the rung loop. -/
def fflRecords (maps : Maps) (destSet : List String)
    (ctx : Option String × Option String × Option String) (txt : String) :
    List MappingRecord :=
  (scanText tryFfl txt).flatMap (fflExpand maps destSet ctx)

/-- One `<MessageParameters>` element; `none` models the uncaught
`ValueError` of `int(req_len)` / `int(local_index_s)`. -/
def msgRecordsOf (maps : Maps) (destSet : List String)
    (ctx : Option String × Option String × Option String) (mp : MsgParams) :
    Option (List MappingRecord) :=
  if mp.localElement.getD "" = "" ∨ mp.requestedLength.getD "" = "" then
    some []
  else do
    let length ← pyInt? (mp.requestedLength.getD "")
    let localIndex ← pyInt? (mp.localIndex.getD "0")
    let localElem := mp.localElement.getD ""
    let dstPair : String × Int :=
      match matchIdx? localElem with
      | some bi => (bi.1, (bi.2 : Int))
      | none => (localElem, localIndex)
    let srcPair : String × Int :=
      match matchIdx? (mp.remoteElement.getD "") with
      | some bi => (bi.1, (bi.2 : Int))
      | none => (mp.remoteElement.getD "", localIndex)
    some <| (List.range length.toNat).filterMap fun k =>
      if dstPair.1 ++ "[" ++ toString (dstPair.2 + k) ++ "]" ∈ destSet then
        some
          { col45 := dstPair.1 ++ "[" ++ toString (dstPair.2 + k) ++ "]",
            description := dictGetD maps.baseDesc dstPair.1 "",
            dataType := dictGetD maps.dtype dstPair.1 "",
            program := ctx.1, routine := ctx.2.1, rung := ctx.2.2,
            instruction := "MESSAGE",
            source := srcPair.1 ++ "[" ++ toString (srcPair.2 + k) ++ "]" }
      else none

/-- Fail-fast sequencing of a list of fallible computations
(the behaviour of the Python loop under an uncaught exception). -/
def traverseOpt (f : α → Option β) : List α → Option (List β)
  | [] => some []
  | x :: xs => do
    let y ← f x
    let ys ← traverseOpt f xs
    some (y :: ys)

/-- All records contributed by one rung, in append order:
COP/CPS, then MOV, then FFL, then MessageParameters. -/
def rungRecords (maps : Maps) (destSet : List String) (r : Rung) :
    Option (List MappingRecord) := do
  let msgs ← traverseOpt (msgRecordsOf maps destSet (rungCtx r)) r.msgParams
  some (copRecords maps destSet (rungCtx r) r.text ++
    movRecords maps destSet (rungCtx r) r.text ++
    fflRecords maps destSet (rungCtx r) r.text ++ msgs.flatten)

/-- The whole step-5 rung loop. -/
def step5Records (inp : Inputs) : Option (List MappingRecord) :=
  (traverseOpt (rungRecords (buildMaps inp.doc.tags) inp.destCol) inp.doc.rungs).map
    List.flatten

/-! ### Sorting keys, the sorted tag list, and the consolidation -/

/-- Strict code-point lexicographic comparison of character lists (the
comparison Python uses between strings, written structurally so that it
evaluates by reduction). -/
def listLtb : List Char → List Char → Bool
  | [], [] => false
  | [], _ :: _ => true
  | _ :: _, [] => false
  | c :: cs, d :: ds => if c < d then true else if d < c then false else listLtb cs ds

/-- Python string `<`: code-point lexicographic order. -/
def strLt (a b : String) : Prop := listLtb a.data b.data = true

/-- Ascending order on `(base, idx, bit)` sort keys: base lexically,
then array index, then bit index. -/
def keyLE (a b : String × Int × Int) : Prop :=
  strLt a.1 b.1 ∨ (a.1 = b.1 ∧ (a.2.1 < b.2.1 ∨ (a.2.1 = b.2.1 ∧ a.2.2 ≤ b.2.2)))

instance (a b : String) : Decidable (strLt a b) := by
  unfold strLt; infer_instance

instance : DecidableRel keyLE := fun a b => by
  unfold keyLE; infer_instance

/-- The record order of the final `sort_values` call (stable sort by
the natural key of the destination column). -/
def recLE (a b : MappingRecord) : Prop :=
  keyLE (tag_sort_key a.col45) (tag_sort_key b.col45)

instance : DecidableRel recLE := fun a b => by
  unfold recLE; infer_instance

/-- The order used by `sorted(dest_tags_set, key=tag_sort_key)`. -/
def tagLE (a b : String) : Prop :=
  keyLE (tag_sort_key a) (tag_sort_key b)

instance : DecidableRel tagLE := fun a b => by
  unfold tagLE; infer_instance

/-- `tags_sorted`: the distinct monitored tags, naturally sorted. -/
def tagsSorted (inp : Inputs) : List String :=
  List.insertionSort tagLE inp.destCol.dedup

/-- `DataFrame.drop_duplicates()`: keep the first occurrence of every
full row tuple. -/
def pdDropDuplicates [DecidableEq α] (l : List α) : List α :=
  l.foldl (fun acc x => if x ∈ acc then acc else acc ++ [x]) []

/-! ### Step 6: the bit-output sweep, and step 7: the not-found pass -/

/-- The fully qualified bit operand `base[idx].bit` built from a
monitored tag. -/
def bitOperand (orig : String) (bit : Nat) : String :=
  (split_index orig).1 ++ "[" ++ toString (split_index orig).2 ++ "]." ++ toString bit

/-- The records the bit sweep emits for one unresolved tag: one per bit
position that has a recorded OTE occurrence; empty when the declared
type is not INT/DINT (the `continue` branch). -/
def sweepRecsFor (maps : Maps) (rungs : List Rung) (orig : String) :
    List MappingRecord :=
  if dictGetD maps.dtype (split_index orig).1 "" = "INT" ∨
      dictGetD maps.dtype (split_index orig).1 "" = "DINT" then
    (List.range
        ((if dictGetD maps.dtype (split_index orig).1 "" = "INT" then 15 else 31) + 1)).filterMap
      fun bit =>
        match oteGet (oteFlat rungs) (bitOperand orig bit) with
        | [] => none
        | c :: _ =>
          some
            { col45 := bitOperand orig bit,
              description := (bitCommentGet maps rungs (bitOperand orig bit)).getD
                (dictGetD maps.baseDesc (split_index orig).1 ""),
              dataType := dictGetD maps.dtype (split_index orig).1 "",
              program := c.1, routine := c.2.1, rung := c.2.2,
              instruction := "OTE", source := "" }
  else []

/-- One iteration of the sweep loop over `tags_sorted`, threading the
records list and the `found_original_tags` set. -/
def sweepOne (maps : Maps) (rungs : List Rung)
    (st : List MappingRecord × List String) (orig : String) :
    List MappingRecord × List String :=
  if orig ∈ st.2 then st
  else
    (st.1 ++ sweepRecsFor maps rungs orig,
      if sweepRecsFor maps rungs orig = [] then st.2 else st.2 ++ [orig])

/-- The whole bit sweep, starting from the step-5 records and the tags
they resolved (`found_original_tags` after step 5 is exactly the set of
`Col45` values of the step-5 records: every `add` is paired with an
append of a record carrying that value). -/
def sweepAll (inp : Inputs) (r5 : List MappingRecord) :
    List MappingRecord × List String :=
  (tagsSorted inp).foldl (sweepOne (buildMaps inp.doc.tags) inp.doc.rungs)
    (r5, r5.map (·.col45))

/-- Step 7: one "Not Found" row per still-unmatched monitored tag. -/
def notFoundRecords (inp : Inputs) (found : List String) :
    List MappingRecord :=
  let maps := buildMaps inp.doc.tags
  (tagsSorted inp).filterMap fun t =>
    if t ∈ found then none
    else
      some
        { col45 := t,
          description := dictGetD maps.baseDesc (split_index t).1 "",
          dataType := dictGetD maps.dtype (split_index t).1 "",
          program := some "", routine := some "", rung := some "",
          instruction := "Not Found", source := "" }

/-- The full record list before consolidation (steps 5–7). -/
def allRecords (inp : Inputs) : Option (List MappingRecord) :=
  match step5Records inp with
  | none => none
  | some r5 =>
    let st := sweepAll inp r5
    some (st.1 ++ notFoundRecords inp st.2)

/-- `extract_mappings`: the final output table (step 8: exact-tuple
dedup, then the stable natural sort); `none` when the run aborts on an
uncaught exception. -/
def extract_mappings (inp : Inputs) : Option (List MappingRecord) :=
  (allRecords inp).map fun recs =>
    List.insertionSort recLE (pdDropDuplicates recs)

/-! ## Infrastructure lemmas -/

theorem pdDropDuplicates_aux_mem [DecidableEq α] (l : List α) :
    ∀ (acc : List α) (x : α),
      (x ∈ l.foldl (fun acc x => if x ∈ acc then acc else acc ++ [x]) acc) ↔
        x ∈ acc ∨ x ∈ l := by
  induction l with
  | nil => intro acc x; simp
  | cons a t ih =>
    intro acc x
    simp only [List.foldl_cons]
    by_cases h : a ∈ acc
    · rw [if_pos h, ih]
      constructor
      · rintro (hx | hx)
        · exact Or.inl hx
        · exact Or.inr (List.mem_cons_of_mem a hx)
      · rintro (hx | hx)
        · exact Or.inl hx
        · rcases List.mem_cons.mp hx with rfl | hx
          · exact Or.inl h
          · exact Or.inr hx
    · rw [if_neg h, ih]
      simp only [List.mem_append, List.mem_singleton, List.mem_cons]
      tauto

theorem pdDropDuplicates_mem [DecidableEq α] (l : List α) (x : α) :
    x ∈ pdDropDuplicates l ↔ x ∈ l := by
  unfold pdDropDuplicates
  rw [pdDropDuplicates_aux_mem]
  simp

theorem pdDropDuplicates_aux_nodup [DecidableEq α] (l : List α) :
    ∀ acc : List α, acc.Nodup →
      (l.foldl (fun acc x => if x ∈ acc then acc else acc ++ [x]) acc).Nodup := by
  induction l with
  | nil => intro acc h; simpa using h
  | cons a t ih =>
    intro acc h
    simp only [List.foldl_cons]
    by_cases hm : a ∈ acc
    · rw [if_pos hm]; exact ih acc h
    · rw [if_neg hm]
      refine ih _ (List.nodup_append.mpr ⟨h, List.nodup_singleton a, ?_⟩)
      intro x hx hx1
      rcases List.mem_singleton.mp hx1 with rfl
      exact hm hx

theorem pdDropDuplicates_nodup [DecidableEq α] (l : List α) :
    (pdDropDuplicates l).Nodup :=
  pdDropDuplicates_aux_nodup l [] List.nodup_nil

theorem traverseOpt_mem (f : α → Option β) :
    ∀ (l : List α) (ys : List β), traverseOpt f l = some ys →
      ∀ x ∈ l, ∃ y, f x = some y ∧ y ∈ ys := by
  intro l
  induction l with
  | nil => intro ys _ x hx; simp at hx
  | cons a t ih =>
    intro ys h x hx
    revert h
    unfold traverseOpt
    cases hfa : f a with
    | none => intro h; simp at h
    | some y =>
      cases ht : traverseOpt f t with
      | none => intro h; simp at h
      | some ys' =>
        intro h
        simp only [Option.bind_eq_bind, Option.some_bind] at h
        rcases List.mem_cons.mp hx with rfl | hx
        · exact ⟨y, hfa, by rw [← Option.some_inj.mp h]; exact List.mem_cons_self _ _⟩
        · rcases ih ys' ht x hx with ⟨y', hy', hmem⟩
          exact ⟨y', hy', by rw [← Option.some_inj.mp h]; exact List.mem_cons_of_mem _ hmem⟩

theorem traverseOpt_mem_rev (f : α → Option β) :
    ∀ (l : List α) (ys : List β), traverseOpt f l = some ys →
      ∀ y ∈ ys, ∃ x ∈ l, f x = some y := by
  intro l
  induction l with
  | nil =>
    intro ys h y hy
    unfold traverseOpt at h
    rw [← Option.some_inj.mp h] at hy
    simp at hy
  | cons a t ih =>
    intro ys h y hy
    revert h
    unfold traverseOpt
    cases hfa : f a with
    | none => intro h; simp at h
    | some y0 =>
      cases ht : traverseOpt f t with
      | none => intro h; simp at h
      | some ys' =>
        intro h
        simp only [Option.bind_eq_bind, Option.some_bind] at h
        rw [← Option.some_inj.mp h] at hy
        rcases List.mem_cons.mp hy with rfl | hy
        · exact ⟨a, List.mem_cons_self _ _, hfa⟩
        · rcases ih ys' ht y hy with ⟨x, hx, hfx⟩
          exact ⟨x, List.mem_cons_of_mem _ hx, hfx⟩

theorem traverseOpt_isSome (f : α → Option β) :
    ∀ l : List α, (∀ x ∈ l, (f x).isSome) → (traverseOpt f l).isSome := by
  intro l
  induction l with
  | nil => intro _; rfl
  | cons a t ih =>
    intro h
    unfold traverseOpt
    cases hfa : f a with
    | none => exact absurd (h a (List.mem_cons_self _ _)) (by simp [hfa])
    | some y =>
      cases ht : traverseOpt f t with
      | none =>
        exact absurd (ih fun x hx => h x (List.mem_cons_of_mem _ hx)) (by simp [ht])
      | some ys => simp

theorem mem_scanAux (tryAt : List Char → Option (α × List Char)) :
    ∀ (fuel : Nat) (prev : Option Char) (s : List Char) (a : α),
      a ∈ scanAux tryAt fuel prev s →
        ∃ s' rest, tryAt s' = some (a, rest) := by
  intro fuel
  induction fuel with
  | zero => intro prev s a h; simp [scanAux] at h
  | succ n ih =>
    intro prev s a h
    match s with
    | [] => simp [scanAux] at h
    | c :: cs =>
      revert h
      unfold scanAux
      cases htry : (if boundaryOk prev then tryAt (c :: cs) else none) with
      | none =>
        intro h
        exact ih (some c) cs a h
      | some p =>
        intro h
        rcases List.mem_cons.mp h with rfl | h
        · refine ⟨c :: cs, p.2, ?_⟩
          revert htry
          by_cases hb : boundaryOk prev
          · rw [if_pos hb]; intro htry; rw [htry]
          · rw [if_neg hb]; intro htry; exact absurd htry (by simp)
        · exact ih _ _ a h

theorem mem_scanText (tryAt : List Char → Option (α × List Char))
    (s : String) (a : α) (h : a ∈ scanText tryAt s) :
    ∃ s' rest, tryAt s' = some (a, rest) :=
  mem_scanAux tryAt _ none s.data a h

/-! ### The natural-key order is a total preorder -/

theorem string_eq_of_data (s t : String) (h : s.data = t.data) : s = t := by
  cases s; cases t; cases h; rfl

theorem listLtb_trans :
    ∀ a b c : List Char, listLtb a b = true → listLtb b c = true →
      listLtb a c = true := by
  intro a
  induction a with
  | nil =>
    intro b c hab hbc
    cases b with
    | nil => exact hbc
    | cons y ys =>
      cases c with
      | nil => simp [listLtb] at hbc
      | cons z zs => rfl
  | cons x xs ih =>
    intro b c hab hbc
    cases b with
    | nil => simp [listLtb] at hab
    | cons y ys =>
      cases c with
      | nil => simp [listLtb] at hbc
      | cons z zs =>
        simp only [listLtb] at hab hbc ⊢
        by_cases hxy : x < y
        · rw [if_pos hxy] at hab
          by_cases hyz : y < z
          · rw [if_pos (hxy.trans hyz)]
          · rw [if_neg hyz] at hbc
            by_cases hzy : z < y
            · rw [if_pos hzy] at hbc; exact absurd hbc (by simp)
            · have hxz : x < z := lt_of_lt_of_le hxy (not_lt.mp hzy)
              rw [if_pos hxz]
        · rw [if_neg hxy] at hab
          by_cases hyx : y < x
          · rw [if_pos hyx] at hab; exact absurd hab (by simp)
          · rw [if_neg hyx] at hab
            have hxy' : x = y := le_antisymm (not_lt.mp hyx) (not_lt.mp hxy)
            subst hxy'
            by_cases hxz : x < z
            · rw [if_pos hxz]
            · rw [if_neg hxz] at hbc ⊢
              by_cases hzx : z < x
              · rw [if_pos hzx] at hbc; exact absurd hbc (by simp)
              · rw [if_neg hzx] at hbc ⊢
                exact ih ys zs hab hbc

theorem listLtb_total :
    ∀ a b : List Char, listLtb a b = true ∨ a = b ∨ listLtb b a = true := by
  intro a
  induction a with
  | nil =>
    intro b
    cases b with
    | nil => exact Or.inr (Or.inl rfl)
    | cons y ys => exact Or.inl rfl
  | cons x xs ih =>
    intro b
    cases b with
    | nil => exact Or.inr (Or.inr rfl)
    | cons y ys =>
      rcases lt_trichotomy x y with h | h | h
      · exact Or.inl (by simp [listLtb, h])
      · subst h
        rcases ih ys with h' | h' | h'
        · exact Or.inl (by simp [listLtb, lt_irrefl, h'])
        · exact Or.inr (Or.inl (by rw [h']))
        · exact Or.inr (Or.inr (by simp [listLtb, lt_irrefl, h']))
      · exact Or.inr (Or.inr (by simp [listLtb, h, asymm h]))

theorem strLt_trans {a b c : String} (h1 : strLt a b) (h2 : strLt b c) :
    strLt a c :=
  listLtb_trans a.data b.data c.data h1 h2

theorem keyLE_total : ∀ a b, keyLE a b ∨ keyLE b a := by
  intro a b
  unfold keyLE
  rcases listLtb_total a.1.data b.1.data with h | h | h
  · exact Or.inl (Or.inl h)
  · have e : a.1 = b.1 := string_eq_of_data _ _ h
    rcases lt_trichotomy a.2.1 b.2.1 with h2 | h2 | h2
    · exact Or.inl (Or.inr ⟨e, Or.inl h2⟩)
    · rcases le_total a.2.2 b.2.2 with h3 | h3
      · exact Or.inl (Or.inr ⟨e, Or.inr ⟨h2, h3⟩⟩)
      · exact Or.inr (Or.inr ⟨e.symm, Or.inr ⟨h2.symm, h3⟩⟩)
    · exact Or.inr (Or.inr ⟨e.symm, Or.inl h2⟩)
  · exact Or.inr (Or.inl h)

theorem keyLE_trans : ∀ a b c, keyLE a b → keyLE b c → keyLE a c := by
  intro a b c hab hbc
  unfold keyLE at *
  rcases hab with h1 | ⟨e1, h1⟩
  · rcases hbc with h2 | ⟨e2, h2⟩
    · exact Or.inl (strLt_trans h1 h2)
    · exact Or.inl (by unfold strLt at *; rw [← e2]; exact h1)
  · rcases hbc with h2 | ⟨e2, h2⟩
    · exact Or.inl (by unfold strLt at *; rw [e1]; exact h2)
    · refine Or.inr ⟨e1.trans e2, ?_⟩
      rcases h1 with h1 | ⟨f1, h1⟩
      · rcases h2 with h2 | ⟨f2, h2⟩
        · exact Or.inl (h1.trans h2)
        · exact Or.inl (by rw [← f2]; exact h1)
      · rcases h2 with h2 | ⟨f2, h2⟩
        · exact Or.inl (by rw [f1]; exact h2)
        · exact Or.inr ⟨f1.trans f2, h1.trans h2⟩

instance : IsTotal MappingRecord recLE :=
  ⟨fun a b => keyLE_total (tag_sort_key a.col45) (tag_sort_key b.col45)⟩

instance : IsTrans MappingRecord recLE :=
  ⟨fun a b c => keyLE_trans (tag_sort_key a.col45) (tag_sort_key b.col45)
    (tag_sort_key c.col45)⟩

/-! ### Decomposition of the pipeline -/

theorem extract_eq_some_iff (inp : Inputs) (out : List MappingRecord) :
    extract_mappings inp = some out ↔
      ∃ recs, allRecords inp = some recs ∧
        out = List.insertionSort recLE (pdDropDuplicates recs) := by
  unfold extract_mappings
  cases h : allRecords inp with
  | none => simp
  | some recs => simp [eq_comm]

theorem mem_out_iff {inp : Inputs} {out recs : List MappingRecord}
    (h : allRecords inp = some recs)
    (hout : extract_mappings inp = some out) (r : MappingRecord) :
    r ∈ out ↔ r ∈ recs := by
  rcases (extract_eq_some_iff inp out).mp hout with ⟨recs', h', rfl⟩
  rw [h] at h'
  cases Option.some_inj.mp h'
  rw [List.mem_insertionSort, pdDropDuplicates_mem]

theorem allRecords_eq_some_iff (inp : Inputs) (recs : List MappingRecord) :
    allRecords inp = some recs ↔
      ∃ r5, step5Records inp = some r5 ∧
        recs = (sweepAll inp r5).1 ++ notFoundRecords inp (sweepAll inp r5).2 := by
  unfold allRecords
  cases h : step5Records inp with
  | none => simp
  | some r5 => simp [eq_comm]

theorem step5_forward {inp : Inputs} {r5 : List MappingRecord}
    (h : step5Records inp = some r5) :
    ∀ rg ∈ inp.doc.rungs,
      ∃ l, rungRecords (buildMaps inp.doc.tags) inp.destCol rg = some l ∧
        ∀ r ∈ l, r ∈ r5 := by
  intro rg hrg
  unfold step5Records at h
  cases ht : traverseOpt (rungRecords (buildMaps inp.doc.tags) inp.destCol)
      inp.doc.rungs with
  | none => rw [ht] at h; simp at h
  | some ls =>
    rw [ht] at h
    simp only [Option.map_some'] at h
    rcases traverseOpt_mem _ _ _ ht rg hrg with ⟨l, hl, hmem⟩
    refine ⟨l, hl, fun r hr => ?_⟩
    rw [← Option.some_inj.mp h]
    exact List.mem_flatten.mpr ⟨l, hmem, hr⟩

theorem step5_backward {inp : Inputs} {r5 : List MappingRecord}
    (h : step5Records inp = some r5) :
    ∀ r ∈ r5, ∃ rg ∈ inp.doc.rungs,
      ∃ l, rungRecords (buildMaps inp.doc.tags) inp.destCol rg = some l ∧
        r ∈ l := by
  intro r hr
  unfold step5Records at h
  cases ht : traverseOpt (rungRecords (buildMaps inp.doc.tags) inp.destCol)
      inp.doc.rungs with
  | none => rw [ht] at h; simp at h
  | some ls =>
    rw [ht] at h
    simp only [Option.map_some'] at h
    rw [← Option.some_inj.mp h] at hr
    rcases List.mem_flatten.mp hr with ⟨l, hl, hrl⟩
    rcases traverseOpt_mem_rev _ _ _ ht l hl with ⟨rg, hrg, hfrg⟩
    exact ⟨rg, hrg, l, hfrg, hrl⟩

theorem rungRecords_eq_some_iff (maps : Maps) (destSet : List String)
    (rg : Rung) (l : List MappingRecord) :
    rungRecords maps destSet rg = some l ↔
      ∃ msgs, traverseOpt (msgRecordsOf maps destSet (rungCtx rg)) rg.msgParams = some msgs ∧
        l = copRecords maps destSet (rungCtx rg) rg.text ++
            movRecords maps destSet (rungCtx rg) rg.text ++
            fflRecords maps destSet (rungCtx rg) rg.text ++ msgs.flatten := by
  unfold rungRecords
  cases h : traverseOpt (msgRecordsOf maps destSet (rungCtx rg)) rg.msgParams with
  | none => simp
  | some msgs =>
    simp only [Option.bind_eq_bind, Option.some_bind, Option.some_inj]
    constructor
    · intro hh
      exact ⟨msgs, rfl, hh.symm⟩
    · rintro ⟨msgs', hm, rfl⟩
      rw [hm]

/-! ### The bit-sweep fold -/

theorem sweep_recs_mono (maps : Maps) (rungs : List Rung) :
    ∀ (l : List String) (st : List MappingRecord × List String)
      (r : MappingRecord), r ∈ st.1 →
      r ∈ (l.foldl (sweepOne maps rungs) st).1 := by
  intro l
  induction l with
  | nil => intro st r h; exact h
  | cons o t ih =>
    intro st r h
    refine ih _ r ?_
    unfold sweepOne
    by_cases hm : o ∈ st.2
    · rw [if_pos hm]; exact h
    · rw [if_neg hm]; exact List.mem_append_left _ h

theorem sweep_recs_cases (maps : Maps) (rungs : List Rung) :
    ∀ (l : List String) (st : List MappingRecord × List String)
      (r : MappingRecord), r ∈ (l.foldl (sweepOne maps rungs) st).1 →
      r ∈ st.1 ∨ ∃ orig ∈ l, r ∈ sweepRecsFor maps rungs orig := by
  intro l
  induction l with
  | nil => intro st r h; exact Or.inl h
  | cons o t ih =>
    intro st r h
    rcases ih _ r h with h' | ⟨orig, ho, hr⟩
    · revert h'
      unfold sweepOne
      by_cases hm : o ∈ st.2
      · rw [if_pos hm]; exact Or.inl
      · rw [if_neg hm]
        intro h'
        rcases List.mem_append.mp h' with h' | h'
        · exact Or.inl h'
        · exact Or.inr ⟨o, List.mem_cons_self _ _, h'⟩
    · exact Or.inr ⟨orig, List.mem_cons_of_mem _ ho, hr⟩

theorem sweep_found_cases (maps : Maps) (rungs : List Rung) :
    ∀ (l : List String) (st : List MappingRecord × List String) (x : String),
      x ∈ (l.foldl (sweepOne maps rungs) st).2 →
      x ∈ st.2 ∨ (x ∈ l ∧ sweepRecsFor maps rungs x ≠ [] ∧
        ∀ r ∈ sweepRecsFor maps rungs x, r ∈ (l.foldl (sweepOne maps rungs) st).1) := by
  intro l
  induction l with
  | nil => intro st x h; exact Or.inl h
  | cons o t ih =>
    intro st x h
    rcases ih _ x h with h' | ⟨hx, hne, hall⟩
    · revert h'
      unfold sweepOne
      by_cases hm : o ∈ st.2
      · rw [if_pos hm]; exact Or.inl
      · rw [if_neg hm]
        by_cases hr : sweepRecsFor maps rungs o = []
        · rw [if_pos hr]; exact Or.inl
        · rw [if_neg hr]
          intro h'
          rcases List.mem_append.mp h' with h' | h'
          · exact Or.inl h'
          · rcases List.mem_singleton.mp h' with rfl
            refine Or.inr ⟨List.mem_cons_self _ _, hr, fun r hrr => ?_⟩
            refine sweep_recs_mono maps rungs t _ r ?_
            show r ∈ (sweepOne maps rungs st x).1
            unfold sweepOne
            rw [if_neg hm, if_neg hr]
            exact List.mem_append_right _ hrr
    · exact Or.inr ⟨List.mem_cons_of_mem _ hx, hne, hall⟩

theorem mem_tagsSorted_iff (inp : Inputs) (t : String) :
    t ∈ tagsSorted inp ↔ t ∈ inp.destCol := by
  unfold tagsSorted
  rw [List.mem_insertionSort, List.mem_dedup]

/-! ### Characterizations of the per-family record builders -/

theorem copExpand_intro (maps : Maps) (destSet : List String)
    (ctx : Option String × Option String × Option String) (m : CopMatch)
    (k : Nat) (hk : k < m.len)
    (hmem : (split_index m.dst).1 ++ "[" ++ toString ((split_index m.dst).2 + k) ++ "]" ∈ destSet) :
    ({ col45 := (split_index m.dst).1 ++ "[" ++ toString ((split_index m.dst).2 + k) ++ "]",
       description := dictGetD maps.baseDesc (split_index m.dst).1 "",
       dataType := dictGetD maps.dtype (split_index m.dst).1 "",
       program := ctx.1, routine := ctx.2.1, rung := ctx.2.2,
       instruction := m.instr,
       source := (split_index m.src).1 ++ "[" ++ toString ((split_index m.src).2 + k) ++ "]" } :
      MappingRecord) ∈ copExpand maps destSet ctx m := by
  unfold copExpand
  refine List.mem_filterMap.mpr ⟨k, List.mem_range.mpr hk, ?_⟩
  simp only [if_pos hmem]

theorem copExpand_elim (maps : Maps) (destSet : List String)
    (ctx : Option String × Option String × Option String) (m : CopMatch)
    (r : MappingRecord) (h : r ∈ copExpand maps destSet ctx m) :
    r.col45 ∈ destSet ∧ r.instruction = m.instr ∧
      ∃ k : Nat, r.col45 = (split_index m.dst).1 ++ "[" ++ toString ((split_index m.dst).2 + k) ++ "]" := by
  unfold copExpand at h
  rcases List.mem_filterMap.mp h with ⟨k, _, heq⟩
  by_cases hmem :
      (split_index m.dst).1 ++ "[" ++ toString ((split_index m.dst).2 + k) ++ "]" ∈ destSet
  · rw [if_pos hmem] at heq
    cases Option.some_inj.mp heq
    exact ⟨hmem, rfl, k, rfl⟩
  · rw [if_neg hmem] at heq
    simp at heq

theorem movRecords_elim (maps : Maps) (destSet : List String)
    (ctx : Option String × Option String × Option String) (txt : String)
    (r : MappingRecord) (h : r ∈ movRecords maps destSet ctx txt) :
    r.col45 ∈ destSet ∧ r.instruction = "MOV" := by
  unfold movRecords at h
  rcases List.mem_filterMap.mp h with ⟨m, _, heq⟩
  by_cases hmem : m.dst ∈ destSet
  · rw [if_pos hmem] at heq
    cases Option.some_inj.mp heq
    exact ⟨hmem, rfl⟩
  · rw [if_neg hmem] at heq
    simp at heq

theorem fflExpand_none (maps : Maps) (destSet : List String)
    (ctx : Option String × Option String × Option String) (m : FflMatch)
    (h : dictGet? maps.controlLen (strip_index m.ctl) = none) :
    fflExpand maps destSet ctx m = [] := by
  unfold fflExpand
  rw [h]

theorem fflExpand_intro (maps : Maps) (destSet : List String)
    (ctx : Option String × Option String × Option String) (m : FflMatch)
    (n : Int) (k : Nat)
    (hn : dictGet? maps.controlLen (strip_index m.ctl) = some n)
    (hk : k < n.toNat)
    (hmem : (split_index m.dst).1 ++ "[" ++ toString ((split_index m.dst).2 + k) ++ "]" ∈ destSet) :
    ({ col45 := (split_index m.dst).1 ++ "[" ++ toString ((split_index m.dst).2 + k) ++ "]",
       description := dictGetD maps.baseDesc (split_index m.dst).1 "",
       dataType := dictGetD maps.dtype (split_index m.dst).1 "",
       program := ctx.1, routine := ctx.2.1, rung := ctx.2.2,
       instruction := "FFL", source := m.src } :
      MappingRecord) ∈ fflExpand maps destSet ctx m := by
  unfold fflExpand
  rw [hn]
  have hne : n ≠ 0 := by
    intro h0
    rw [h0] at hk
    simp at hk
  dsimp only
  rw [if_neg hne]
  refine List.mem_filterMap.mpr ⟨k, List.mem_range.mpr hk, ?_⟩
  simp only [if_pos hmem]

theorem fflExpand_elim (maps : Maps) (destSet : List String)
    (ctx : Option String × Option String × Option String) (m : FflMatch)
    (r : MappingRecord) (h : r ∈ fflExpand maps destSet ctx m) :
    r.col45 ∈ destSet ∧ r.instruction = "FFL" ∧ r.source = m.src ∧
      ∃ k : Nat, r.col45 = (split_index m.dst).1 ++ "[" ++ toString ((split_index m.dst).2 + k) ++ "]" := by
  unfold fflExpand at h
  revert h
  split
  · intro h; simp at h
  · split
    · intro h; simp at h
    · intro h
      rcases List.mem_filterMap.mp h with ⟨k, _, heq⟩
      revert heq
      split
      · intro heq
        rename_i hmem
        cases Option.some_inj.mp heq
        exact ⟨hmem, rfl, rfl, k, rfl⟩
      · intro heq; simp at heq

theorem msgRecordsOf_elim (maps : Maps) (destSet : List String)
    (ctx : Option String × Option String × Option String) (mp : MsgParams)
    (ms : List MappingRecord) (hms : msgRecordsOf maps destSet ctx mp = some ms)
    (r : MappingRecord) (h : r ∈ ms) :
    r.col45 ∈ destSet ∧ r.instruction = "MESSAGE" ∧
      ∃ (b : String) (i : Int), r.col45 = b ++ "[" ++ toString i ++ "]" := by
  unfold msgRecordsOf at hms
  by_cases hguard : mp.localElement.getD "" = "" ∨ mp.requestedLength.getD "" = ""
  · rw [if_pos hguard] at hms
    cases Option.some_inj.mp hms
    simp at h
  · rw [if_neg hguard] at hms
    cases hlen : pyInt? (mp.requestedLength.getD "") with
    | none => rw [hlen] at hms; simp at hms
    | some len =>
      cases hidx : pyInt? (mp.localIndex.getD "0") with
      | none => rw [hlen, hidx] at hms; simp at hms
      | some li =>
        rw [hlen, hidx] at hms
        simp only [Option.bind_eq_bind, Option.some_bind, Option.some_inj] at hms
        rw [← hms] at h
        rcases List.mem_filterMap.mp h with ⟨k, _, heq⟩
        revert heq
        split
        · intro heq
          rename_i hmem
          cases Option.some_inj.mp heq
          exact ⟨hmem, rfl, _, _, rfl⟩
        · intro heq; simp at heq

theorem mem_sweepRecsFor (maps : Maps) (rungs : List Rung) (orig : String)
    (r : MappingRecord) (h : r ∈ sweepRecsFor maps rungs orig) :
    ∃ (bit : Nat) (c : Option String × Option String × Option String)
      (rest : List (Option String × Option String × Option String)),
      bit < 32 ∧
      oteGet (oteFlat rungs) (bitOperand orig bit) = c :: rest ∧
      r.col45 = bitOperand orig bit ∧ r.instruction = "OTE" ∧ r.source = "" ∧
      r.program = c.1 ∧ r.routine = c.2.1 ∧ r.rung = c.2.2 := by
  unfold sweepRecsFor at h
  revert h
  split
  · intro h
    rcases List.mem_filterMap.mp h with ⟨bit, hbit, heq⟩
    have hb32 : bit < 32 := by
      have := List.mem_range.mp hbit
      refine lt_of_lt_of_le this ?_
      split <;> omega
    revert heq
    split
    · intro heq; simp at heq
    · intro heq
      rename_i c rest hget
      cases Option.some_inj.mp heq
      exact ⟨bit, c, rest, hb32, hget, rfl, rfl, rfl, rfl, rfl, rfl⟩
  · intro h; simp at h

theorem oteGet_cons (rungs : List Rung) (op : String)
    (c : Option String × Option String × Option String)
    (rest : List (Option String × Option String × Option String))
    (h : oteGet (oteFlat rungs) op = c :: rest) :
    ∃ rg ∈ rungs, op ∈ oteOperandsOf rg := by
  unfold oteGet at h
  cases hf : (oteFlat rungs).filter (fun p => p.1 = op) with
  | nil => rw [hf] at h; simp at h
  | cons p0 t0 =>
    have hp0 : p0 ∈ (oteFlat rungs).filter (fun p => p.1 = op) := by
      rw [hf]; exact List.mem_cons_self _ _
    rcases List.mem_filter.mp hp0 with ⟨hmem, hkey⟩
    rcases List.mem_flatMap.mp hmem with ⟨rg, hrg, hpe⟩
    rcases List.mem_map.mp hpe with ⟨op', hop', heq⟩
    refine ⟨rg, hrg, ?_⟩
    have : p0.1 = op := by simpa using hkey
    rw [← this, ← heq]
    exact hop'

/-! ### Instruction-kind classification -/

theorem tryCopKw_instr (s : List Char) (p : String × List Char)
    (h : tryCopKw s = some p) : p.1 = "COP" ∨ p.1 = "CPS" := by
  unfold tryCopKw at h
  cases h1 : matchCI ['c', 'o', 'p'] s with
  | some r => rw [h1] at h; cases Option.some_inj.mp h; exact Or.inl rfl
  | none =>
    rw [h1] at h
    cases h2 : matchCI ['c', 'p', 's'] s with
    | some r => rw [h2] at h; cases Option.some_inj.mp h; exact Or.inr rfl
    | none => rw [h2] at h; simp at h

theorem tryCop_instr (s : List Char) (m : CopMatch) (rest : List Char)
    (h : tryCop s = some (m, rest)) : m.instr = "COP" ∨ m.instr = "CPS" := by
  unfold tryCop at h
  simp only [Option.bind_eq_bind, Option.bind_eq_some] at h
  rcases h with ⟨⟨kw, r0⟩, hkw, h⟩
  rcases h with ⟨r1, _, h⟩
  rcases h with ⟨⟨src, r2⟩, _, h⟩
  rcases h with ⟨r3, _, h⟩
  rcases h with ⟨⟨dst, r4⟩, _, h⟩
  rcases h with ⟨r5, _, h⟩
  rcases h with ⟨⟨ds, r6⟩, _, h⟩
  rcases h with ⟨r7, _, h⟩
  cases Option.some_inj.mp h
  exact tryCopKw_instr s (kw, r0) hkw

theorem scanText_tryCop_instr (txt : String) (m : CopMatch)
    (h : m ∈ scanText tryCop txt) : m.instr = "COP" ∨ m.instr = "CPS" := by
  rcases mem_scanText tryCop txt m h with ⟨s', rest, hs⟩
  exact tryCop_instr s' m rest hs

theorem rungRecords_instr (maps : Maps) (destSet : List String) (rg : Rung)
    (l : List MappingRecord) (hl : rungRecords maps destSet rg = some l)
    (r : MappingRecord) (h : r ∈ l) :
    r.instruction = "COP" ∨ r.instruction = "CPS" ∨ r.instruction = "MOV" ∨
      r.instruction = "FFL" ∨ r.instruction = "MESSAGE" := by
  rcases (rungRecords_eq_some_iff maps destSet rg l).mp hl with ⟨msgs, hmsgs, rfl⟩
  rcases List.mem_append.mp h with h' | h'
  · rcases List.mem_append.mp h' with h'' | h''
    · rcases List.mem_append.mp h'' with h3 | h3
      · unfold copRecords at h3
        rcases List.mem_flatMap.mp h3 with ⟨m, hm, hr⟩
        rcases copExpand_elim maps destSet (rungCtx rg) m r hr with ⟨_, hinstr, _⟩
        rcases scanText_tryCop_instr rg.text m hm with hc | hc
        · exact Or.inl (hinstr.trans hc)
        · exact Or.inr (Or.inl (hinstr.trans hc))
      · exact Or.inr (Or.inr (Or.inl (movRecords_elim maps destSet (rungCtx rg) rg.text r h3).2))
    · unfold fflRecords at h''
      rcases List.mem_flatMap.mp h'' with ⟨m, _, hr⟩
      exact Or.inr (Or.inr (Or.inr (Or.inl (fflExpand_elim maps destSet (rungCtx rg) m r hr).2.1)))
  · rcases List.mem_flatten.mp h' with ⟨ms, hms, hr⟩
    rcases traverseOpt_mem_rev _ _ _ hmsgs ms hms with ⟨mp, _, hmp⟩
    exact Or.inr (Or.inr (Or.inr (Or.inr
      (msgRecordsOf_elim maps destSet (rungCtx rg) mp ms hmp r hr).2.1)))

theorem rungRecords_col45 (maps : Maps) (destSet : List String) (rg : Rung)
    (l : List MappingRecord) (hl : rungRecords maps destSet rg = some l)
    (r : MappingRecord) (h : r ∈ l) : r.col45 ∈ destSet := by
  rcases (rungRecords_eq_some_iff maps destSet rg l).mp hl with ⟨msgs, hmsgs, rfl⟩
  rcases List.mem_append.mp h with h' | h'
  · rcases List.mem_append.mp h' with h'' | h''
    · rcases List.mem_append.mp h'' with h3 | h3
      · unfold copRecords at h3
        rcases List.mem_flatMap.mp h3 with ⟨m, _, hr⟩
        exact (copExpand_elim maps destSet (rungCtx rg) m r hr).1
      · exact (movRecords_elim maps destSet (rungCtx rg) rg.text r h3).1
    · unfold fflRecords at h''
      rcases List.mem_flatMap.mp h'' with ⟨m, _, hr⟩
      exact (fflExpand_elim maps destSet (rungCtx rg) m r hr).1
  · rcases List.mem_flatten.mp h' with ⟨ms, hms, hr⟩
    rcases traverseOpt_mem_rev _ _ _ hmsgs ms hms with ⟨mp, _, hmp⟩
    exact (msgRecordsOf_elim maps destSet (rungCtx rg) mp ms hmp r hr).1

/-! ### Not-found rows -/

theorem notFoundRecords_intro (inp : Inputs) (found : List String) (t : String)
    (ht : t ∈ tagsSorted inp) (hnf : t ∉ found) :
    ({ col45 := t,
       description := dictGetD (buildMaps inp.doc.tags).baseDesc (split_index t).1 "",
       dataType := dictGetD (buildMaps inp.doc.tags).dtype (split_index t).1 "",
       program := some "", routine := some "", rung := some "",
       instruction := "Not Found", source := "" } : MappingRecord) ∈
      notFoundRecords inp found := by
  unfold notFoundRecords
  refine List.mem_filterMap.mpr ⟨t, ht, ?_⟩
  rw [if_neg hnf]

theorem notFoundRecords_elim (inp : Inputs) (found : List String)
    (r : MappingRecord) (h : r ∈ notFoundRecords inp found) :
    r.col45 ∈ tagsSorted inp ∧ r.instruction = "Not Found" := by
  unfold notFoundRecords at h
  rcases List.mem_filterMap.mp h with ⟨t, ht, heq⟩
  revert heq
  split
  · intro heq; simp at heq
  · intro heq
    cases Option.some_inj.mp heq
    exact ⟨ht, rfl⟩

/-! ### Provenance of an output record -/

theorem extract_some_parts {inp : Inputs} {out : List MappingRecord}
    (hout : extract_mappings inp = some out) :
    ∃ r5, step5Records inp = some r5 ∧
      allRecords inp = some ((sweepAll inp r5).1 ++ notFoundRecords inp (sweepAll inp r5).2) := by
  rcases (extract_eq_some_iff inp out).mp hout with ⟨recs, hall, _⟩
  rcases (allRecords_eq_some_iff inp recs).mp hall with ⟨r5, h5, hrecs⟩
  exact ⟨r5, h5, by rw [hall, hrecs]⟩

theorem out_provenance {inp : Inputs} {out : List MappingRecord}
    (hout : extract_mappings inp = some out) (r : MappingRecord) (hr : r ∈ out) :
    ∃ r5, step5Records inp = some r5 ∧
      (r ∈ r5 ∨
        (∃ orig ∈ tagsSorted inp,
          r ∈ sweepRecsFor (buildMaps inp.doc.tags) inp.doc.rungs orig) ∨
        r ∈ notFoundRecords inp (sweepAll inp r5).2) := by
  rcases extract_some_parts hout with ⟨r5, h5, hall⟩
  refine ⟨r5, h5, ?_⟩
  rw [mem_out_iff hall hout r] at hr
  rcases List.mem_append.mp hr with h' | h'
  · unfold sweepAll at h'
    rcases sweep_recs_cases (buildMaps inp.doc.tags) inp.doc.rungs _ _ r h' with h'' | h''
    · exact Or.inl h''
    · exact Or.inr (Or.inl h'')
  · exact Or.inr (Or.inr h')

theorem mem_out_of_mem_step5 {inp : Inputs} {out r5 : List MappingRecord}
    (hout : extract_mappings inp = some out)
    (h5 : step5Records inp = some r5) (r : MappingRecord) (hr : r ∈ r5) :
    r ∈ out := by
  rcases extract_some_parts hout with ⟨r5', h5', hall⟩
  rw [h5] at h5'
  cases Option.some_inj.mp h5'
  rw [mem_out_iff hall hout r]
  refine List.mem_append_left _ ?_
  unfold sweepAll
  exact sweep_recs_mono _ _ _ _ r hr

theorem step5_instr {inp : Inputs} {r5 : List MappingRecord}
    (h5 : step5Records inp = some r5) (r : MappingRecord) (hr : r ∈ r5) :
    r.instruction = "COP" ∨ r.instruction = "CPS" ∨ r.instruction = "MOV" ∨
      r.instruction = "FFL" ∨ r.instruction = "MESSAGE" := by
  rcases step5_backward h5 r hr with ⟨rg, _, l, hl, hrl⟩
  exact rungRecords_instr _ _ rg l hl r hrl

theorem step5_col45 {inp : Inputs} {r5 : List MappingRecord}
    (h5 : step5Records inp = some r5) (r : MappingRecord) (hr : r ∈ r5) :
    r.col45 ∈ inp.destCol := by
  rcases step5_backward h5 r hr with ⟨rg, _, l, hl, hrl⟩
  exact rungRecords_col45 _ _ rg l hl r hrl

theorem mem_out_of_copExpand {inp : Inputs} {out : List MappingRecord}
    (hout : extract_mappings inp = some out) (rg : Rung)
    (hrg : rg ∈ inp.doc.rungs) (m : CopMatch) (hm : m ∈ scanText tryCop rg.text)
    (r : MappingRecord)
    (hr : r ∈ copExpand (buildMaps inp.doc.tags) inp.destCol (rungCtx rg) m) :
    r ∈ out := by
  rcases extract_some_parts hout with ⟨r5, h5, _⟩
  rcases step5_forward h5 rg hrg with ⟨l, hl, hsub⟩
  rcases (rungRecords_eq_some_iff _ _ rg l).mp hl with ⟨msgs, _, rfl⟩
  refine mem_out_of_mem_step5 hout h5 r (hsub r ?_)
  refine List.mem_append_left _ (List.mem_append_left _ (List.mem_append_left _ ?_))
  exact List.mem_flatMap.mpr ⟨m, hm, hr⟩

theorem mem_out_of_fflExpand {inp : Inputs} {out : List MappingRecord}
    (hout : extract_mappings inp = some out) (rg : Rung)
    (hrg : rg ∈ inp.doc.rungs) (m : FflMatch) (hm : m ∈ scanText tryFfl rg.text)
    (r : MappingRecord)
    (hr : r ∈ fflExpand (buildMaps inp.doc.tags) inp.destCol (rungCtx rg) m) :
    r ∈ out := by
  rcases extract_some_parts hout with ⟨r5, h5, _⟩
  rcases step5_forward h5 rg hrg with ⟨l, hl, hsub⟩
  rcases (rungRecords_eq_some_iff _ _ rg l).mp hl with ⟨msgs, _, rfl⟩
  refine mem_out_of_mem_step5 hout h5 r (hsub r ?_)
  refine List.mem_append_left _ (List.mem_append_right _ ?_)
  exact List.mem_flatMap.mpr ⟨m, hm, hr⟩

theorem out_instr_cases {inp : Inputs} {out : List MappingRecord}
    (hout : extract_mappings inp = some out) (r : MappingRecord) (hr : r ∈ out) :
    r.instruction = "COP" ∨ r.instruction = "CPS" ∨ r.instruction = "MOV" ∨
      r.instruction = "FFL" ∨ r.instruction = "MESSAGE" ∨
      r.instruction = "OTE" ∨ r.instruction = "Not Found" := by
  rcases out_provenance hout r hr with ⟨r5, h5, hcase⟩
  rcases hcase with h' | ⟨_, _, h'⟩ | h'
  · rcases step5_instr h5 r h' with h | h | h | h | h <;> tauto
  · rcases mem_sweepRecsFor _ _ _ r h' with ⟨_, _, _, _, _, _, h, _⟩
    tauto
  · have := (notFoundRecords_elim _ _ r h').2
    tauto

theorem toString_intOfNat (n : Nat) : toString ((n : Int)) = toString n := rfl

theorem step5_shape {inp : Inputs} {r5 : List MappingRecord}
    (h5 : step5Records inp = some r5) (r : MappingRecord) (hr : r ∈ r5) :
    r.instruction = "MOV" ∨
      ∃ (b : String) (i : Int), r.col45 = b ++ "[" ++ toString i ++ "]" := by
  rcases step5_backward h5 r hr with ⟨rg, _, l, hl, hrl⟩
  rcases (rungRecords_eq_some_iff _ _ rg l).mp hl with ⟨msgs, hmsgs, rfl⟩
  rcases List.mem_append.mp hrl with h' | h'
  · rcases List.mem_append.mp h' with h'' | h''
    · rcases List.mem_append.mp h'' with h3 | h3
      · unfold copRecords at h3
        rcases List.mem_flatMap.mp h3 with ⟨m, _, hr'⟩
        rcases copExpand_elim _ _ _ m r hr' with ⟨_, _, k, hcol⟩
        refine Or.inr ⟨(split_index m.dst).1, (((split_index m.dst).2 + k : Nat) : Int), ?_⟩
        rw [hcol, toString_intOfNat]
      · exact Or.inl (movRecords_elim _ _ _ _ r h3).2
    · unfold fflRecords at h''
      rcases List.mem_flatMap.mp h'' with ⟨m, _, hr'⟩
      rcases fflExpand_elim _ _ _ m r hr' with ⟨_, _, _, k, hcol⟩
      refine Or.inr ⟨(split_index m.dst).1, (((split_index m.dst).2 + k : Nat) : Int), ?_⟩
      rw [hcol, toString_intOfNat]
  · rcases List.mem_flatten.mp h' with ⟨ms, hms, hr'⟩
    rcases traverseOpt_mem_rev _ _ _ hmsgs ms hms with ⟨mp, _, hmp⟩
    exact Or.inr (msgRecordsOf_elim _ _ _ mp ms hmp r hr').2.2

theorem bracket_getLast (b : String) (i : Int) :
    (b ++ "[" ++ toString i ++ "]").data.getLast? = some ']' := by
  rw [String.data_append]
  rw [show ("]" : String).data = [']'] from rfl]
  exact List.getLast?_concat _

theorem single_char_ne_bracket (c : Char) (hc : c ≠ ']') (b : String) (i : Int) :
    (⟨[c]⟩ : String) ≠ b ++ "[" ++ toString i ++ "]" := by
  intro h
  have h2 := congrArg (fun s : String => s.data.getLast?) h
  dsimp only at h2
  rw [bracket_getLast] at h2
  simp only [List.getLast?_singleton] at h2
  exact hc (Option.some_inj.mp h2)

/-! ## Concrete example inputs used by the counterexamples and witnesses -/

/-- A declared tag `X` of type INT. -/
def tagX : Tag :=
  { name := some "X", dataType := some "INT", description := none,
    comments := [], lenValue := none }

/-- A rung whose text drives the coil `X[0].5`. -/
def rungOteX05 : Rung :=
  { progName := some "P", routName := some "R", number := some "0",
    text := "OTE(X[0].5)", operandElems := [], msgParams := [] }

/-- Monitored tag `X` (unindexed), with only a coil on bit 5 of `X[0]`. -/
def cex1 : Inputs :=
  { destCol := ["X"], doc := { tags := [tagX], rungs := [rungOteX05] } }

/-- Monitored tag `X[0]`, with only a coil on bit 5 of `X[0]`. -/
def cex2 : Inputs :=
  { destCol := ["X[0]"], doc := { tags := [tagX], rungs := [rungOteX05] } }

/-- The bit-sweep record that both `cex1` and `cex2` produce. -/
def oteRecX05 : MappingRecord :=
  { col45 := "X[0].5", description := "", dataType := "INT",
    program := some "P", routine := some "R", rung := some "0",
    instruction := "OTE", source := "" }

/-- A block-copy rung: `COP(Z[5],Y[0],3)` (the example of spec §8). -/
def c3rung : Rung :=
  { progName := some "MainProgram", routName := some "R1", number := some "4",
    text := "XIC(A)COP(Z[5],Y[0],3)", operandElems := [], msgParams := [] }

def c3inp : Inputs :=
  { destCol := ["Y[0]", "Y[1]", "Y[2]"], doc := { tags := [], rungs := [c3rung] } }

/-- The COP occurrence matched in `c3rung`. -/
def c3m : CopMatch := { instr := "COP", src := "Z[5]", dst := "Y[0]", len := 3 }

def c3out : List MappingRecord :=
  [{ col45 := "Y[0]", description := "", dataType := "",
     program := some "MainProgram", routine := some "R1", rung := some "4",
     instruction := "COP", source := "Z[5]" },
   { col45 := "Y[1]", description := "", dataType := "",
     program := some "MainProgram", routine := some "R1", rung := some "4",
     instruction := "COP", source := "Z[6]" },
   { col45 := "Y[2]", description := "", dataType := "",
     program := some "MainProgram", routine := some "R1", rung := some "4",
     instruction := "COP", source := "Z[7]" }]

/-- A CONTROL tag `C` with `LEN` value 2. -/
def tagC : Tag :=
  { name := some "C", dataType := some "CONTROL", description := none,
    comments := [], lenValue := some "2" }

/-- A FIFO-load rung: `FFL(S[1],D[0],C)`. -/
def c4rung : Rung :=
  { progName := some "P", routName := some "R", number := some "0",
    text := "FFL(S[1],D[0],C)", operandElems := [], msgParams := [] }

def cex4 : Inputs :=
  { destCol := ["D[1]"], doc := { tags := [tagC], rungs := [c4rung] } }

/-- The FFL occurrence matched in `c4rung`. -/
def c4m : FflMatch := { src := "S[1]", dst := "D[0]", ctl := "C" }

def c4out : List MappingRecord :=
  [{ col45 := "D[1]", description := "", dataType := "",
     program := some "P", routine := some "R", rung := some "0",
     instruction := "FFL", source := "S[1]" }]

/-- A FIFO-load rung whose control tag `C` is never declared. -/
def c5rung : Rung :=
  { progName := some "P", routName := some "R", number := some "0",
    text := "FFL(S,D,C)", operandElems := [], msgParams := [] }

def c5inp : Inputs :=
  { destCol := ["D[0]"], doc := { tags := [], rungs := [c5rung] } }

/-- The FFL occurrence matched in `c5rung`. -/
def c5m : FflMatch := { src := "S", dst := "D", ctl := "C" }

def tagB : Tag :=
  { name := some "B", dataType := some "INT", description := none,
    comments := [], lenValue := none }

def tagZ : Tag :=
  { name := some "Z", dataType := some "INT", description := none,
    comments := [], lenValue := none }

/-- A rung driving only `Z[0].1`; no coil touches any bit of `B`. -/
def c6rung : Rung :=
  { progName := some "P", routName := some "R", number := some "0",
    text := "OTE(Z[0].1)", operandElems := [], msgParams := [] }

def c6inp : Inputs :=
  { destCol := ["B", "Z[0]"], doc := { tags := [tagB, tagZ], rungs := [c6rung] } }

def c6out : List MappingRecord :=
  [{ col45 := "B", description := "", dataType := "INT",
     program := some "", routine := some "", rung := some "",
     instruction := "Not Found", source := "" },
   { col45 := "Z[0].1", description := "", dataType := "INT",
     program := some "P", routine := some "R", rung := some "0",
     instruction := "OTE", source := "" }]

/-- Two rungs driving the same coil `X[0].1`, in scan order. -/
def c7rungA : Rung :=
  { progName := some "P1", routName := some "R1", number := some "0",
    text := "OTE(X[0].1)", operandElems := [], msgParams := [] }

def c7rungB : Rung :=
  { progName := some "P2", routName := some "R2", number := some "7",
    text := "OTE(X[0].1)", operandElems := [], msgParams := [] }

def c7inp : Inputs :=
  { destCol := ["X[0]"], doc := { tags := [tagX], rungs := [c7rungA, c7rungB] } }

def c7out : List MappingRecord :=
  [{ col45 := "X[0].1", description := "", dataType := "INT",
     program := some "P1", routine := some "R1", rung := some "0",
     instruction := "OTE", source := "" }]

/-- The natural-sort example of spec §8: four unmatched monitored tags. -/
def c8inp : Inputs :=
  { destCol := ["X[10]", "X[2].3", "X", "X[2]"],
    doc := { tags := [], rungs := [] } }

/-- One rung containing the same MOV twice, producing duplicate rows. -/
def c9rung : Rung :=
  { progName := some "P", routName := some "R", number := some "0",
    text := "MOV(A,B) MOV(A,B)", operandElems := [], msgParams := [] }

def c9inp : Inputs :=
  { destCol := ["B"], doc := { tags := [], rungs := [c9rung] } }

def c9rec : MappingRecord :=
  { col45 := "B", description := "", dataType := "",
    program := some "P", routine := some "R", rung := some "0",
    instruction := "MOV", source := "A" }

/-- The OTE record of the `c6inp` run. -/
def c6ote : MappingRecord :=
  { col45 := "Z[0].1", description := "", dataType := "INT",
    program := some "P", routine := some "R", rung := some "0",
    instruction := "OTE", source := "" }

/-- The single FFL record of the `cex4` run. -/
def c4rec : MappingRecord :=
  { col45 := "D[1]", description := "", dataType := "",
    program := some "P", routine := some "R", rung := some "0",
    instruction := "FFL", source := "S[1]" }

/-- The `Y[1]` record of the `c3inp` run. -/
def c3rec1 : MappingRecord :=
  { col45 := "Y[1]", description := "", dataType := "",
    program := some "MainProgram", routine := some "R1", rung := some "4",
    instruction := "COP", source := "Z[6]" }

/-- The single OTE record of the `c7inp` run (attributed to the first of
the two rungs that drive `X[0].1`). -/
def c7rec : MappingRecord :=
  { col45 := "X[0].1", description := "", dataType := "INT",
    program := some "P1", routine := some "R1", rung := some "0",
    instruction := "OTE", source := "" }

/-- The `c8inp` run: the four unmatched tags, naturally sorted. -/
def c8out : List MappingRecord :=
  [{ col45 := "X", description := "", dataType := "",
     program := some "", routine := some "", rung := some "",
     instruction := "Not Found", source := "" },
   { col45 := "X[2]", description := "", dataType := "",
     program := some "", routine := some "", rung := some "",
     instruction := "Not Found", source := "" },
   { col45 := "X[2].3", description := "", dataType := "",
     program := some "", routine := some "", rung := some "",
     instruction := "Not Found", source := "" },
   { col45 := "X[10]", description := "", dataType := "",
     program := some "", routine := some "", rung := some "",
     instruction := "Not Found", source := "" }]

/-! ## The claims -/

/-- Claim C1, counterexample: with monitored-tag list `["X"]`, `X`
declared INT and a single rung `OTE(X[0].5)`, the final output is a
single bit-sweep record with destination `X[0].5`; no record's
destination equals the monitored tag `X`, so "for every monitored tag
the output contains a record whose destination equals that tag exactly"
fails (the bit sweep marked `X` resolved, suppressing its "not found"
row). -/
theorem C1_counterexample :
    "X" ∈ cex1.destCol ∧ extract_mappings cex1 = some [oteRecX05] ∧
      oteRecX05.col45 ≠ "X" := by
  exact ⟨by decide, by decide, by decide⟩

/-- Claim C1 (amended): for every tag in the monitored list, the output
contains at least one record whose destination either equals that tag
exactly (possibly the "not found" kind) or is a bit-qualified operand
`base[idx].bit` of that tag emitted by the bit-output sweep. -/
theorem C1_amended_thm :
    ∀ (inp : Inputs) (out : List MappingRecord),
      extract_mappings inp = some out → ∀ t ∈ inp.destCol,
      ∃ r ∈ out, r.col45 = t ∨
        (r.instruction = "OTE" ∧ ∃ bit : Nat, r.col45 = bitOperand t bit) := by
  intro inp out hout t ht
  rcases extract_some_parts hout with ⟨r5, h5, hall⟩
  have htS : t ∈ tagsSorted inp := (mem_tagsSorted_iff inp t).mpr ht
  by_cases h6 : t ∈ (sweepAll inp r5).2
  · unfold sweepAll at h6
    rcases sweep_found_cases _ _ _ _ t h6 with h' | ⟨_, hne, hallmem⟩
    · rcases List.mem_map.mp h' with ⟨rec, hrec, hcol⟩
      exact ⟨rec, mem_out_of_mem_step5 hout h5 rec hrec, Or.inl hcol⟩
    · rcases List.exists_mem_of_ne_nil _ hne with ⟨r, hr⟩
      rcases mem_sweepRecsFor _ _ _ r hr with ⟨bit, c, rest, _, _, hcol, hinstr, _⟩
      refine ⟨r, ?_, Or.inr ⟨hinstr, bit, hcol⟩⟩
      rw [mem_out_iff hall hout r]
      exact List.mem_append_left _ (hallmem r hr)
  · have hnfmem := notFoundRecords_intro inp (sweepAll inp r5).2 t htS h6
    exact ⟨_, (mem_out_iff hall hout _).mpr (List.mem_append_right _ hnfmem),
      Or.inl rfl⟩

/-- Claim C1 witness: the amended statement evaluated on `cex1`. -/
theorem C1_amended_witness :
    ∃ r ∈ [oteRecX05], r.col45 = "X" ∨
      (r.instruction = "OTE" ∧ ∃ bit : Nat, r.col45 = bitOperand "X" bit) :=
  C1_amended_thm cex1 [oteRecX05] (by decide) "X" (by decide)

/-- Claim C2, counterexample: with monitored-tag list `["X[0]"]`, `X`
declared INT and a single rung `OTE(X[0].5)`, the output's only record
has destination `X[0].5`, which is not a member of the monitored-tag
set — the bit sweep emits destinations outside that set. -/
theorem C2_counterexample :
    extract_mappings cex2 = some [oteRecX05] ∧
      oteRecX05.col45 ∉ cex2.destCol := by
  exact ⟨by decide, by decide⟩

/-- Claim C2 (amended): every record of the final output either has its
destination in the monitored-tag set, or is a bit-sweep record
(instruction kind OTE) whose destination is a bit-qualified operand
`base[idx].bit` of some monitored tag. -/
theorem C2_amended_thm :
    ∀ (inp : Inputs) (out : List MappingRecord),
      extract_mappings inp = some out → ∀ r ∈ out,
      r.col45 ∈ inp.destCol ∨
        (r.instruction = "OTE" ∧
          ∃ t ∈ inp.destCol, ∃ bit : Nat, r.col45 = bitOperand t bit) := by
  intro inp out hout r hr
  rcases out_provenance hout r hr with ⟨r5, h5, hcase⟩
  rcases hcase with h' | ⟨orig, horig, h'⟩ | h'
  · exact Or.inl (step5_col45 h5 r h')
  · rcases mem_sweepRecsFor _ _ _ r h' with ⟨bit, c, rest, _, _, hcol, hinstr, _⟩
    exact Or.inr ⟨hinstr, orig, (mem_tagsSorted_iff inp orig).mp horig, bit, hcol⟩
  · exact Or.inl ((mem_tagsSorted_iff inp _).mp (notFoundRecords_elim _ _ r h').1)

/-- Claim C2 witness: the amended statement evaluated on `cex2`. -/
theorem C2_amended_witness :
    oteRecX05.col45 ∈ cex2.destCol ∨
      (oteRecX05.instruction = "OTE" ∧
        ∃ t ∈ cex2.destCol, ∃ bit : Nat, oteRecX05.col45 = bitOperand t bit) :=
  C2_amended_thm cex2 [oteRecX05] (by decide) oteRecX05 (by decide)

/-- Claim C3: for every block-copy (COP/CPS) occurrence in a rung's
text, with source and destination split by `split_index` (index
defaulting to 0) and inline length `n`, for every `k < n` whose expanded
destination is monitored, the output contains a record with that
destination, source exactly `src_base[src_start+k]`, and the matched
instruction kind; and every record an occurrence's expansion produces
has a monitored destination (unmonitored destinations produce no
record). -/
theorem C3_thm :
    (∀ (inp : Inputs) (out : List MappingRecord) (rg : Rung) (m : CopMatch)
      (k : Nat),
      extract_mappings inp = some out → rg ∈ inp.doc.rungs →
      m ∈ scanText tryCop rg.text → k < m.len →
      (split_index m.dst).1 ++ "[" ++ toString ((split_index m.dst).2 + k) ++ "]" ∈ inp.destCol →
      ∃ r ∈ out,
        r.col45 = (split_index m.dst).1 ++ "[" ++ toString ((split_index m.dst).2 + k) ++ "]" ∧
        r.source = (split_index m.src).1 ++ "[" ++ toString ((split_index m.src).2 + k) ++ "]" ∧
        r.instruction = m.instr) ∧
    (∀ (maps : Maps) (destSet : List String)
      (ctx : Option String × Option String × Option String) (m : CopMatch)
      (r : MappingRecord), r ∈ copExpand maps destSet ctx m →
      r.col45 ∈ destSet) := by
  constructor
  · intro inp out rg m k hout hrg hm hk hmem
    exact ⟨_, mem_out_of_copExpand hout rg hrg m hm _
      (copExpand_intro (buildMaps inp.doc.tags) inp.destCol (rungCtx rg) m k hk hmem),
      rfl, rfl, rfl⟩
  · intro maps destSet ctx m r hr
    exact (copExpand_elim maps destSet ctx m r hr).1

/-- Claim C3 witness: the §8 example `COP(Z[5],Y[0],3)` with monitored
tags `Y[0]..Y[2]`, at `k = 1`. -/
theorem C3_witness :
    (∃ r ∈ c3out,
      r.col45 = (split_index c3m.dst).1 ++ "[" ++ toString ((split_index c3m.dst).2 + 1) ++ "]" ∧
      r.source = (split_index c3m.src).1 ++ "[" ++ toString ((split_index c3m.src).2 + 1) ++ "]" ∧
      r.instruction = c3m.instr) ∧
    c3rec1.col45 ∈ c3inp.destCol :=
  ⟨C3_thm.1 c3inp c3out c3rung c3m 1 (by decide) (by decide) (by decide)
      (by decide) (by decide),
    C3_thm.2 (buildMaps c3inp.doc.tags) c3inp.destCol (rungCtx c3rung) c3m c3rec1
      (by decide)⟩

/-- Claim C4, counterexample: for `FFL(S[1],D[0],C)` with control length
2 and monitored tag `D[1]` (the `k = 1` expanded destination), the
emitted record's source is the raw operand `S[1]`, not the
index-expanded `S[2]` the claim requires — the code deliberately keeps
the FFL source verbatim (`# Source is typically scalar; keep as-is`). -/
theorem C4_counterexample :
    extract_mappings cex4 = some [c4rec] ∧ c4rec.col45 = "D[1]" ∧
      c4rec.source = "S[1]" ∧ c4rec.source ≠ "S[2]" := by
  exact ⟨by decide, by decide, by decide, by decide⟩

/-- Claim C4 (amended): for every FFL occurrence whose control tag's
declared length resolves to `n`, and every `k < n.toNat` whose expanded
destination is monitored, the output contains a record with that
destination, instruction kind FFL, and source exactly the raw
(un-expanded) source operand of the instruction. -/
theorem C4_amended_thm :
    ∀ (inp : Inputs) (out : List MappingRecord) (rg : Rung) (m : FflMatch)
      (n : Int) (k : Nat),
      extract_mappings inp = some out → rg ∈ inp.doc.rungs →
      m ∈ scanText tryFfl rg.text →
      dictGet? (buildMaps inp.doc.tags).controlLen (strip_index m.ctl) = some n →
      k < n.toNat →
      (split_index m.dst).1 ++ "[" ++ toString ((split_index m.dst).2 + k) ++ "]" ∈ inp.destCol →
      ∃ r ∈ out,
        r.col45 = (split_index m.dst).1 ++ "[" ++ toString ((split_index m.dst).2 + k) ++ "]" ∧
        r.instruction = "FFL" ∧ r.source = m.src := by
  intro inp out rg m n k hout hrg hm hn hk hmem
  exact ⟨_, mem_out_of_fflExpand hout rg hrg m hm _
    (fflExpand_intro (buildMaps inp.doc.tags) inp.destCol (rungCtx rg) m n k hn hk hmem),
    rfl, rfl, rfl⟩

/-- Claim C4 witness: the amended statement evaluated on `cex4`. -/
theorem C4_amended_witness :
    ∃ r ∈ [c4rec],
      r.col45 = (split_index c4m.dst).1 ++ "[" ++ toString ((split_index c4m.dst).2 + 1) ++ "]" ∧
      r.instruction = "FFL" ∧ r.source = c4m.src :=
  C4_amended_thm cex4 [c4rec] c4rung c4m 2 1 (by decide) (by decide) (by decide)
    (by decide) (by decide) (by decide)

/-- Claim C5: an FFL occurrence whose control tag has no resolvable
declared length contributes zero records, and a run in which every
message-parameter block parses (the only uncaught-exception site)
completes without aborting. -/
theorem C5_thm :
    (∀ (maps : Maps) (destSet : List String)
      (ctx : Option String × Option String × Option String) (m : FflMatch),
      dictGet? maps.controlLen (strip_index m.ctl) = none →
      fflExpand maps destSet ctx m = []) ∧
    (∀ inp : Inputs,
      (∀ rg ∈ inp.doc.rungs, ∀ mp ∈ rg.msgParams,
        (msgRecordsOf (buildMaps inp.doc.tags) inp.destCol (rungCtx rg) mp).isSome) →
      (extract_mappings inp).isSome) := by
  constructor
  · exact fflExpand_none
  · intro inp h
    have hrr : ∀ rg ∈ inp.doc.rungs,
        (rungRecords (buildMaps inp.doc.tags) inp.destCol rg).isSome := by
      intro rg hrg
      unfold rungRecords
      cases htm : traverseOpt
          (msgRecordsOf (buildMaps inp.doc.tags) inp.destCol (rungCtx rg))
          rg.msgParams with
      | none =>
        have hs := traverseOpt_isSome _ rg.msgParams (fun mp hmp => h rg hrg mp hmp)
        rw [htm] at hs
        exact absurd hs (by simp)
      | some msgs => simp [htm]
    have h5 : (step5Records inp).isSome := by
      unfold step5Records
      have hs := traverseOpt_isSome _ inp.doc.rungs hrr
      cases ht : traverseOpt (rungRecords (buildMaps inp.doc.tags) inp.destCol)
          inp.doc.rungs with
      | none => rw [ht] at hs; exact absurd hs (by simp)
      | some ls => simp [ht]
    unfold extract_mappings allRecords
    cases h5' : step5Records inp with
    | none => rw [h5'] at h5; exact absurd h5 (by simp)
    | some r5 => simp

/-- Claim C5 witness: `FFL(S,D,C)` with the control tag `C` undeclared
contributes no records, and the run (with no message parameters)
completes. -/
theorem C5_witness :
    fflExpand (buildMaps c5inp.doc.tags) c5inp.destCol (rungCtx c5rung) c5m = [] ∧
      (extract_mappings c5inp).isSome :=
  ⟨C5_thm.1 (buildMaps c5inp.doc.tags) c5inp.destCol (rungCtx c5rung) c5m (by decide),
    C5_thm.2 c5inp (by decide)⟩

/-- Claim C6: a record of kind OTE appears in the output only if its
destination operand occurs as a boolean-output (coil) operand in some
rung's text; and a monitored tag none of whose 32 possible bit operands
is driven by a coil, and which no rung-scan record resolves, surfaces
exactly as a "not found" record and never as a bit record. -/
theorem C6_thm :
    ∀ (inp : Inputs) (out : List MappingRecord),
      extract_mappings inp = some out →
      (∀ r ∈ out, r.instruction = "OTE" →
        ∃ rg ∈ inp.doc.rungs, r.col45 ∈ oteOperandsOf rg) ∧
      (∀ t ∈ inp.destCol, ∀ r5, step5Records inp = some r5 →
        (∀ rg ∈ inp.doc.rungs, ∀ bit : Nat, bit < 32 →
          bitOperand t bit ∉ oteOperandsOf rg) →
        (∀ rec ∈ r5, rec.col45 ≠ t) →
        ((∃ r ∈ out, r.col45 = t ∧ r.instruction = "Not Found") ∧
          ∀ r ∈ out, ∀ bit : Nat, bit < 32 → r.col45 = bitOperand t bit →
            r.instruction ≠ "OTE")) := by
  intro inp out hout
  have part1 : ∀ r ∈ out, r.instruction = "OTE" →
      ∃ rg ∈ inp.doc.rungs, r.col45 ∈ oteOperandsOf rg := by
    intro r hr hinstr
    rcases out_provenance hout r hr with ⟨r5, h5, hcase⟩
    rcases hcase with h' | ⟨orig, _, h'⟩ | h'
    · rcases step5_instr h5 r h' with h | h | h | h | h <;>
        (rw [hinstr] at h; exact absurd h (by decide))
    · rcases mem_sweepRecsFor _ _ _ r h' with ⟨bit, c, rest, _, hget, hcol, _, _⟩
      rcases oteGet_cons _ _ _ _ hget with ⟨rg, hrg, hop⟩
      exact ⟨rg, hrg, by rw [hcol]; exact hop⟩
    · have hnf := (notFoundRecords_elim _ _ r h').2
      rw [hinstr] at hnf
      exact absurd hnf (by decide)
  refine ⟨part1, ?_⟩
  intro t ht r5' h5' hnoote hnorec
  rcases extract_some_parts hout with ⟨r5, h5, hall⟩
  rw [h5] at h5'
  cases Option.some_inj.mp h5'
  have hsw : sweepRecsFor (buildMaps inp.doc.tags) inp.doc.rungs t = [] := by
    cases hcase : sweepRecsFor (buildMaps inp.doc.tags) inp.doc.rungs t with
    | nil => rfl
    | cons r rest =>
      have hr : r ∈ sweepRecsFor (buildMaps inp.doc.tags) inp.doc.rungs t := by
        rw [hcase]; exact List.mem_cons_self _ _
      rcases mem_sweepRecsFor _ _ _ r hr with ⟨bit, c, crest, hb32, hget, _⟩
      rcases oteGet_cons _ _ _ _ hget with ⟨rg, hrg, hop⟩
      exact absurd hop (hnoote rg hrg bit hb32)
  have hnotin : t ∉ (sweepAll inp r5').2 := by
    intro hmem
    unfold sweepAll at hmem
    rcases sweep_found_cases _ _ _ _ t hmem with h' | ⟨_, hne, _⟩
    · rcases List.mem_map.mp h' with ⟨rec, hrec, hcol⟩
      exact hnorec rec hrec hcol
    · exact hne hsw
  constructor
  · have hnfmem :=
      notFoundRecords_intro inp _ t ((mem_tagsSorted_iff inp t).mpr ht) hnotin
    refine ⟨_, (mem_out_iff hall hout _).mpr (List.mem_append_right _ hnfmem),
      ?_, ?_⟩ <;> rfl
  · intro r hr bit hb32 hcol hinstr
    rcases part1 r hr hinstr with ⟨rg, hrg, hop⟩
    rw [hcol] at hop
    exact hnoote rg hrg bit hb32 hop

/-- Claim C6 witness: on `c6inp`, the bit record `Z[0].1` is backed by a
coil occurrence, and the coil-free monitored tag `B` surfaces as "not
found" with no bit record. -/
theorem C6_witness :
    (∃ rg ∈ c6inp.doc.rungs, c6ote.col45 ∈ oteOperandsOf rg) ∧
      ((∃ r ∈ c6out, r.col45 = "B" ∧ r.instruction = "Not Found") ∧
        ∀ r ∈ c6out, ∀ bit : Nat, bit < 32 → r.col45 = bitOperand "B" bit →
          r.instruction ≠ "OTE") := by
  have h := C6_thm c6inp c6out (by decide)
  exact ⟨h.1 c6ote (by decide) (by decide),
    h.2 "B" (by decide) [] (by decide) (by decide) (by decide)⟩

/-- Claim C7: every bit-sweep (OTE-kind) record has empty source and
takes its program, routine and rung from the head of the full
occurrence list of its operand (occurrence order = rung scan order),
even when later occurrences exist. -/
theorem C7_thm :
    ∀ (inp : Inputs) (out : List MappingRecord) (r : MappingRecord),
      extract_mappings inp = some out → r ∈ out → r.instruction = "OTE" →
      r.source = "" ∧
        ∃ c rest, oteGet (oteFlat inp.doc.rungs) r.col45 = c :: rest ∧
          r.program = c.1 ∧ r.routine = c.2.1 ∧ r.rung = c.2.2 := by
  intro inp out r hout hr hinstr
  rcases out_provenance hout r hr with ⟨r5, h5, hcase⟩
  rcases hcase with h' | ⟨orig, _, h'⟩ | h'
  · rcases step5_instr h5 r h' with h | h | h | h | h <;>
      (rw [hinstr] at h; exact absurd h (by decide))
  · rcases mem_sweepRecsFor _ _ _ r h' with
      ⟨bit, c, rest, _, hget, hcol, _, hsrc, hprog, hrout, hrg⟩
    exact ⟨hsrc, c, rest, by rw [hcol]; exact hget, hprog, hrout, hrg⟩
  · have hnf := (notFoundRecords_elim _ _ r h').2
    rw [hinstr] at hnf
    exact absurd hnf (by decide)

/-- Claim C7 witness: with two rungs both driving `X[0].1`, the emitted
record is attributed to the first occurrence. -/
theorem C7_witness :
    c7rec.source = "" ∧
      ∃ c rest, oteGet (oteFlat c7inp.doc.rungs) c7rec.col45 = c :: rest ∧
        c7rec.program = c.1 ∧ c7rec.routine = c.2.1 ∧ c7rec.rung = c.2.2 :=
  C7_thm c7inp [c7rec] c7rec (by decide) (by decide) (by decide)

/-- Claim C8: the final output is sorted ascending by the natural key of
the destination (base lexically, array index, bit index, the numeric
components defaulting to −1); in particular the destinations `X`,
`X[2]`, `X[2].3`, `X[10]` come out exactly in that order. -/
theorem C8_thm :
    (∀ (inp : Inputs) (out : List MappingRecord),
      extract_mappings inp = some out → List.Sorted recLE out) ∧
    (extract_mappings c8inp).map (fun l => l.map (·.col45)) =
      some ["X", "X[2]", "X[2].3", "X[10]"] := by
  constructor
  · intro inp out hout
    rcases (extract_eq_some_iff inp out).mp hout with ⟨recs, _, rfl⟩
    exact List.sorted_insertionSort recLE (pdDropDuplicates recs)
  · decide

/-- Claim C8 witness: the sortedness statement evaluated on `c8inp`. -/
theorem C8_witness : List.Sorted recLE c8out :=
  C8_thm.1 c8inp c8out (by decide)

/-- Claim C9: after consolidation no two output records agree on all
eight fields, and every record present before deduplication is still
present in the output (distinct records sharing a destination are
preserved). -/
theorem C9_thm :
    ∀ (inp : Inputs) (out : List MappingRecord),
      extract_mappings inp = some out →
      out.Nodup ∧ ∀ recs, allRecords inp = some recs → ∀ r ∈ recs, r ∈ out := by
  intro inp out hout
  rcases (extract_eq_some_iff inp out).mp hout with ⟨recs0, hall0, rfl⟩
  constructor
  · exact ((List.perm_insertionSort recLE _).nodup_iff).mpr
      (pdDropDuplicates_nodup recs0)
  · intro recs hall r hr
    rw [hall0] at hall
    cases Option.some_inj.mp hall
    rw [List.mem_insertionSort, pdDropDuplicates_mem]
    exact hr

/-- Claim C9 witness: a rung containing the same MOV twice produces two
identical rows before consolidation; the output keeps exactly one and
it is duplicate-free. -/
theorem C9_witness : ([c9rec] : List MappingRecord).Nodup ∧ c9rec ∈ [c9rec] := by
  have h := C9_thm c9inp [c9rec] (by decide)
  exact ⟨h.1, h.2 [c9rec, c9rec] (by decide) c9rec (by decide)⟩

/-- Claim C10: every output record of kind COP/CPS/FFL/MESSAGE has a
destination of the bracketed form `base[i]` (an integer formatted
between brackets); consequently a record whose destination is not of
that form can only be of kind MOV (destination matched verbatim), OTE
(bit sweep), or "Not Found". -/
theorem C10_thm :
    ∀ (inp : Inputs) (out : List MappingRecord),
      extract_mappings inp = some out →
      (∀ r ∈ out,
        (r.instruction = "COP" ∨ r.instruction = "CPS" ∨
          r.instruction = "FFL" ∨ r.instruction = "MESSAGE") →
        ∃ (b : String) (i : Int), r.col45 = b ++ "[" ++ toString i ++ "]") ∧
      (∀ r ∈ out,
        (∀ (b : String) (i : Int), r.col45 ≠ b ++ "[" ++ toString i ++ "]") →
        r.instruction = "MOV" ∨ r.instruction = "OTE" ∨
          r.instruction = "Not Found") := by
  intro inp out hout
  have part1 : ∀ r ∈ out,
      (r.instruction = "COP" ∨ r.instruction = "CPS" ∨
        r.instruction = "FFL" ∨ r.instruction = "MESSAGE") →
      ∃ (b : String) (i : Int), r.col45 = b ++ "[" ++ toString i ++ "]" := by
    intro r hr hkind
    rcases out_provenance hout r hr with ⟨r5, h5, hcase⟩
    rcases hcase with h' | ⟨_, _, h'⟩ | h'
    · rcases step5_shape h5 r h' with hmov | hshape
      · rcases hkind with h | h | h | h <;>
          (rw [hmov] at h; exact absurd h (by decide))
      · exact hshape
    · rcases mem_sweepRecsFor _ _ _ r h' with ⟨_, _, _, _, _, _, hinstr, _⟩
      rcases hkind with h | h | h | h <;>
        (rw [hinstr] at h; exact absurd h (by decide))
    · have hnf := (notFoundRecords_elim _ _ r h').2
      rcases hkind with h | h | h | h <;>
        (rw [hnf] at h; exact absurd h (by decide))
  refine ⟨part1, ?_⟩
  intro r hr hnshape
  rcases out_instr_cases hout r hr with h | h | h | h | h | h | h
  · rcases part1 r hr (Or.inl h) with ⟨b, i, hbi⟩
    exact absurd hbi (hnshape b i)
  · rcases part1 r hr (Or.inr (Or.inl h)) with ⟨b, i, hbi⟩
    exact absurd hbi (hnshape b i)
  · exact Or.inl h
  · rcases part1 r hr (Or.inr (Or.inr (Or.inl h))) with ⟨b, i, hbi⟩
    exact absurd hbi (hnshape b i)
  · rcases part1 r hr (Or.inr (Or.inr (Or.inr h))) with ⟨b, i, hbi⟩
    exact absurd hbi (hnshape b i)
  · exact Or.inr (Or.inl h)
  · exact Or.inr (Or.inr h)

/-- Claim C10 witness: the FFL record of `cex4` has a bracketed
destination, and the MOV record of `c9inp`, whose destination `B` is
not bracketed, is of one of the allowed kinds. -/
theorem C10_witness :
    (∃ (b : String) (i : Int), c4rec.col45 = b ++ "[" ++ toString i ++ "]") ∧
      (c9rec.instruction = "MOV" ∨ c9rec.instruction = "OTE" ∨
        c9rec.instruction = "Not Found") :=
  ⟨(C10_thm cex4 [c4rec] (by decide)).1 c4rec (by decide) (by decide),
    (C10_thm c9inp [c9rec] (by decide)).2 c9rec (by decide)
      (fun b i => single_char_ne_bracket 'B' (by decide) b i)⟩

end ExtractTagData
